import Mathlib

/-!
Verification development for the DAP (Debug Adapter Protocol) debugging core of
the noir-playground-server repository (`src/debug/debug.service.ts`, the
`DebugService` class).

Modelling conventions:
* JavaScript strings are modelled as `List Char` (sequences of Unicode scalar
  values).  `String.prototype.substring` and `indexOf` are modelled by the
  clamping `drop`/`take` combinators below, matching their character-indexed
  semantics.
* `Buffer.byteLength(s, 'utf-8')` is modelled by `byteLength`, the sum of the
  UTF-8 encoded sizes of the characters.
* JSON values (the `any`-typed DAP message objects) are modelled by `JValue`,
  with numeric leaves restricted to integers (the DAP fields the service reads,
  `seq` and `request_seq`, are integers).  `JSON.stringify` / `JSON.parse` are
  modelled by `stringify` / `jsonParse` for this fragment (no whitespace
  handling: `JSON.stringify` emits none).
* Asynchronous callbacks and `Promise` control flow are modelled by explicit
  state passing; external observations (subprocess exit codes, responses
  arriving from the subprocess) are supplied through environment records.
-/

namespace NoirDebug

/-- Left and right curly brace characters, used when building JSON text. -/
def lbrace : Char := Char.ofNat 123

/-- Right curly brace character. -/
def rbrace : Char := Char.ofNat 125

/-- Convert a Lean string literal to the `List Char` string model. -/
def sChars (s : String) : List Char := s.data

/-- UTF-8 encoded size in bytes of one character (1 to 4). -/
def utf8Len (c : Char) : Nat :=
  if c.toNat < 128 then 1
  else if c.toNat < 2048 then 2
  else if c.toNat < 65536 then 3
  else 4

/-- Model of `Buffer.byteLength(s, 'utf-8')`: total UTF-8 size of the string. -/
def byteLength (s : List Char) : Nat :=
  (s.map utf8Len).sum

/-- Model of the two-argument JavaScript `s.substring(start, stop)`
(character indexed, clamping at the end of the string; arguments are used in
order everywhere in the source). -/
def substringJS (s : List Char) (start stop : Nat) : List Char :=
  (s.drop start).take (stop - start)

/-- Decimal digit character for `d < 10`. -/
def digitChar (d : Nat) : Char := Char.ofNat (48 + d)

/-- Digits of `n` most-significant first, with `fuel` bounding the recursion
(`fuel = n` is always enough since a number has at most `n` digits). -/
def natToCharsAux : Nat → Nat → List Char
  | 0, _ => []
  | fuel + 1, n =>
    if n = 0 then [] else natToCharsAux fuel (n / 10) ++ [digitChar (n % 10)]

/-- Decimal rendering of a natural number, as produced by JavaScript template
interpolation of a non-negative integer. -/
def natToChars (n : Nat) : List Char :=
  if n = 0 then ['0'] else natToCharsAux n n

/-- Numeric value of a run of decimal digit characters, as computed by
`parseInt(ds, 10)` on a digits-only string. -/
def charsVal (cs : List Char) : Nat :=
  cs.foldl (fun a c => a * 10 + (c.toNat - 48)) 0

/-- Decimal rendering of an integer (JavaScript number-to-string for an
integral value). -/
def intToChars (i : Int) : List Char :=
  if i < 0 then '-' :: natToChars i.natAbs else natToChars i.natAbs

/-- Lowercase hexadecimal digit character for `d < 16`. -/
def hexChar (d : Nat) : Char :=
  if d < 10 then Char.ofNat (48 + d) else Char.ofNat (87 + d)

/-- Value of a hexadecimal digit character, if it is one. -/
def hexVal (c : Char) : Option Nat :=
  if 48 ≤ c.toNat ∧ c.toNat ≤ 57 then some (c.toNat - 48)
  else if 97 ≤ c.toNat ∧ c.toNat ≤ 102 then some (c.toNat - 87)
  else if 65 ≤ c.toNat ∧ c.toNat ≤ 70 then some (c.toNat - 55)
  else none

/-- First index at which `pat` occurs in `s` (model of JavaScript
`s.indexOf(pat)`, with `none` for the `-1` no-occurrence result). -/
def indexOfSub (s pat : List Char) : Option Nat :=
  if pat.isPrefixOf s then some 0
  else
    match s with
    | [] => none
    | _ :: rest => (indexOfSub rest pat).map (· + 1)

/-- The JSON model: `null`, booleans, integer numbers, strings, arrays and
objects (member lists in insertion order). -/
inductive JValue where
  | jnull : JValue
  | jbool : Bool → JValue
  | jnum : Int → JValue
  | jstr : List Char → JValue
  | jarr : List JValue → JValue
  | jobj : List (List Char × JValue) → JValue

/-- JSON escaping of one string character, as performed by `JSON.stringify`:
quote, backslash and the named control characters get two-character escapes,
other control characters get a `\u00xx` escape, everything else is emitted
verbatim. -/
def escapeChar (c : Char) : List Char :=
  if c = '"' then ['\\', '"']
  else if c = '\\' then ['\\', '\\']
  else if c = Char.ofNat 8 then ['\\', 'b']
  else if c = Char.ofNat 9 then ['\\', 't']
  else if c = Char.ofNat 10 then ['\\', 'n']
  else if c = Char.ofNat 12 then ['\\', 'f']
  else if c = Char.ofNat 13 then ['\\', 'r']
  else if c.toNat < 32 then
    ['\\', 'u', '0', '0', hexChar (c.toNat / 16), hexChar (c.toNat % 16)]
  else [c]

/-- JSON escaping of a whole string body. -/
def escapeChars : List Char → List Char
  | [] => []
  | c :: rest => escapeChar c ++ escapeChars rest

mutual

/-- Model of `JSON.stringify` on `JValue` (no added whitespace). -/
def stringify : JValue → List Char
  | .jnull => sChars "null"
  | .jbool true => sChars "true"
  | .jbool false => sChars "false"
  | .jnum i => intToChars i
  | .jstr s => '"' :: (escapeChars s ++ ['"'])
  | .jarr xs => '[' :: (stringifyElems xs ++ [']'])
  | .jobj ms => lbrace :: (stringifyMembers ms ++ [rbrace])

/-- Comma-separated rendering of array elements. -/
def stringifyElems : List JValue → List Char
  | [] => []
  | [x] => stringify x
  | x :: y :: rest => stringify x ++ ',' :: stringifyElems (y :: rest)

/-- Comma-separated rendering of object members (`"key":value`). -/
def stringifyMembers : List (List Char × JValue) → List Char
  | [] => []
  | [(k, v)] => '"' :: (escapeChars k ++ '"' :: ':' :: stringify v)
  | (k, v) :: y :: rest =>
    ('"' :: (escapeChars k ++ '"' :: ':' :: stringify v)) ++
      ',' :: stringifyMembers (y :: rest)

end

/-- Prepend a character to the string built by a string-body parse result. -/
def psCons (c : Char) : Option (List Char × List Char) → Option (List Char × List Char)
  | some (s, r) => some (c :: s, r)
  | none => none

/-- Parser for a JSON string body (after the opening quote), returning the
decoded string and the input after the closing quote.  Raw control characters
are rejected, escape sequences are decoded. -/
def parseStringBody : List Char → Option (List Char × List Char)
  | [] => none
  | c :: rest =>
    if c = '"' then some ([], rest)
    else if c = '\\' then
      match rest with
      | [] => none
      | e :: rest2 =>
        if e = '"' then psCons '"' (parseStringBody rest2)
        else if e = '\\' then psCons '\\' (parseStringBody rest2)
        else if e = '/' then psCons '/' (parseStringBody rest2)
        else if e = 'b' then psCons (Char.ofNat 8) (parseStringBody rest2)
        else if e = 'f' then psCons (Char.ofNat 12) (parseStringBody rest2)
        else if e = 'n' then psCons (Char.ofNat 10) (parseStringBody rest2)
        else if e = 'r' then psCons (Char.ofNat 13) (parseStringBody rest2)
        else if e = 't' then psCons (Char.ofNat 9) (parseStringBody rest2)
        else if e = 'u' then
          match rest2 with
          | h1 :: h2 :: h3 :: h4 :: rest3 =>
            match hexVal h1, hexVal h2, hexVal h3, hexVal h4 with
            | some a, some b, some c2, some d =>
              psCons (Char.ofNat (((a * 16 + b) * 16 + c2) * 16 + d))
                (parseStringBody rest3)
            | _, _, _, _ => none
          | _ => none
        else none
    else if c.toNat < 32 then none
    else psCons c (parseStringBody rest)

/-- Parser for a run of decimal digits, returning its value and the rest. -/
def parseNatChars (s : List Char) : Option (Nat × List Char) :=
  if (s.takeWhile Char.isDigit).isEmpty then none
  else some (charsVal (s.takeWhile Char.isDigit),
             s.drop (s.takeWhile Char.isDigit).length)

/-- Parser for an (optionally negated) integer literal. -/
def parseIntChars (s : List Char) : Option (Int × List Char) :=
  if s.head? = some '-' then
    (parseNatChars (s.drop 1)).map (fun p => (-(p.1 : Int), p.2))
  else
    (parseNatChars s).map (fun p => ((p.1 : Int), p.2))

mutual

/-- Fuel-indexed JSON value parser (model of `JSON.parse` on the fragment
emitted by `stringify`); returns the value and the unconsumed suffix. -/
def parseValue : Nat → List Char → Option (JValue × List Char)
  | 0, _ => none
  | fuel + 1, s =>
    match s with
    | [] => none
    | c :: rest =>
      if c = 'n' then
        match rest with
        | 'u' :: 'l' :: 'l' :: rest2 => some (.jnull, rest2)
        | _ => none
      else if c = 't' then
        match rest with
        | 'r' :: 'u' :: 'e' :: rest2 => some (.jbool true, rest2)
        | _ => none
      else if c = 'f' then
        match rest with
        | 'a' :: 'l' :: 's' :: 'e' :: rest2 => some (.jbool false, rest2)
        | _ => none
      else if c = '"' then
        match parseStringBody rest with
        | some (str, rest2) => some (.jstr str, rest2)
        | none => none
      else if c = '[' then
        if rest.head? = some ']' then some (.jarr [], rest.drop 1)
        else
          match parseElems fuel rest with
          | some (vs, rest2) => some (.jarr vs, rest2)
          | none => none
      else if c = lbrace then
        if rest.head? = some rbrace then some (.jobj [], rest.drop 1)
        else
          match parseMembers fuel rest with
          | some (ms, rest2) => some (.jobj ms, rest2)
          | none => none
      else
        match parseIntChars (c :: rest) with
        | some (i, rest2) => some (.jnum i, rest2)
        | none => none

/-- Parser for one-or-more array elements followed by `]`. -/
def parseElems : Nat → List Char → Option (List JValue × List Char)
  | 0, _ => none
  | fuel + 1, s =>
    match parseValue fuel s with
    | none => none
    | some (v, rest) =>
      if rest.head? = some ',' then
        match parseElems fuel (rest.drop 1) with
        | some (vs, rest3) => some (v :: vs, rest3)
        | none => none
      else if rest.head? = some ']' then some ([v], rest.drop 1)
      else none

/-- Parser for one-or-more object members followed by the closing brace. -/
def parseMembers : Nat → List Char → Option (List (List Char × JValue) × List Char)
  | 0, _ => none
  | fuel + 1, s =>
    match s with
    | [] => none
    | c :: rest =>
      if c = '"' then
        match parseStringBody rest with
        | none => none
        | some (k, rest2) =>
          if rest2.head? = some ':' then
            match parseValue fuel (rest2.drop 1) with
            | none => none
            | some (v, rest4) =>
              if rest4.head? = some ',' then
                match parseMembers fuel (rest4.drop 1) with
                | some (ms, rest6) => some ((k, v) :: ms, rest6)
                | none => none
              else if rest4.head? = some rbrace then some ([(k, v)], rest4.drop 1)
              else none
          else none
      else none

end

/-- Model of `JSON.parse` wrapped in try/catch: `none` is the thrown
`SyntaxError` (a whole-input parse; trailing garbage is rejected). -/
def jsonParse (s : List Char) : Option JValue :=
  match parseValue (s.length + 1) s with
  | some (v, []) => some v
  | _ => none

/-! ### DAP framing (`formatDAPMessage`, `parseDAPMessage`,
`parseAllDAPMessages`, `debug.service.ts` lines 1817-1880) -/

/-- The literal `Content-Length: ` header text. -/
def headerLit : List Char := sChars "Content-Length: "

/-- The `\r\n\r\n` header terminator. -/
def crlfcrlf : List Char :=
  [Char.ofNat 13, Char.ofNat 10, Char.ofNat 13, Char.ofNat 10]

/-- `formatDAPMessage`: serialize the message and prepend the
`Content-Length` header, whose value is the UTF-8 byte length of the JSON
payload. -/
def formatDAPMessage (message : JValue) : List Char :=
  headerLit ++ natToChars (byteLength (stringify message)) ++ crlfcrlf ++
    stringify message

/-- Match of the regular expression `Content-Length: (\d+)\r\n\r\n` anchored
at the start of `s`; returns the captured number. -/
def headerMatchAt (s : List Char) : Option Nat :=
  if headerLit.isPrefixOf s then
    if ((s.drop headerLit.length).takeWhile Char.isDigit).isEmpty then none
    else if crlfcrlf.isPrefixOf ((s.drop headerLit.length).drop
        ((s.drop headerLit.length).takeWhile Char.isDigit).length) then
      some (charsVal ((s.drop headerLit.length).takeWhile Char.isDigit))
    else none
  else none

/-- First (leftmost) match of `Content-Length: (\d+)\r\n\r\n` in `s`
(model of `s.match(/Content-Length: (\d+)\r\n\r\n/)`), returning the captured
number run through `parseInt`. -/
def findHeaderNum : List Char → Option Nat
  | [] => none
  | c :: rest =>
    match headerMatchAt (c :: rest) with
    | some n => some n
    | none => findHeaderNum rest

/-- `parseDAPMessage`: locate the `Content-Length` header, then extract
`contentLength` characters starting after the first `\r\n\r\n` (JavaScript
`substring` is character indexed, so the byte count is used as a character
count, clamped at the end of the string) and `JSON.parse` them. -/
def parseDAPMessage (data : List Char) : Option JValue :=
  match findHeaderNum data with
  | none => none
  | some contentLength =>
    let headerEndIndex := (indexOfSub data crlfcrlf).getD 0 + 4
    jsonParse (substringJS data headerEndIndex (headerEndIndex + contentLength))

/-- Loop body of `parseAllDAPMessages`, with explicit fuel standing for the
`while (remaining.length > 0)` loop (every iteration that continues drops at
least the four header-terminator characters, so `data.length + 1` iterations
always suffice). -/
def parseAllGo : Nat → List Char → List JValue
  | 0, _ => []
  | fuel + 1, remaining =>
    if remaining.length = 0 then []
    else
      match findHeaderNum remaining with
      | none => []
      | some contentLength =>
        let headerEndIndex := (indexOfSub remaining crlfcrlf).getD 0 + 4
        match jsonParse
            (substringJS remaining headerEndIndex (headerEndIndex + contentLength)) with
        | none => []
        | some message =>
          message :: parseAllGo fuel (remaining.drop (headerEndIndex + contentLength))

/-- `parseAllDAPMessages`: repeatedly extract one header-framed message from
the front of the buffer; stop at the first missing header or JSON parse
failure. -/
def parseAllDAPMessages (data : List Char) : List JValue :=
  parseAllGo (data.length + 1) data

/-- Concatenation of a sequence of framed messages, as produced on the wire
by successive `formatDAPMessage` writes. -/
def framedAll : List JValue → List Char
  | [] => []
  | msg :: rest => formatDAPMessage msg ++ framedAll rest

/-! ### DAP message field access (`msg.type`, `msg['request_seq']`,
`msg['event']`) -/

/-- Property lookup on an object member list. -/
def jlookup : List (List Char × JValue) → List Char → Option JValue
  | [], _ => none
  | (k, v) :: rest, key => if k = key then some v else jlookup rest key

/-- JavaScript property access `m[key]` on a parsed message (`undefined`,
i.e. `none`, when `m` is not an object or lacks the key). -/
def msgField (m : JValue) (key : List Char) : Option JValue :=
  match m with
  | .jobj kvs => jlookup kvs key
  | _ => none

/-- `msg.type === 'response'`. -/
def isResponseMsg (m : JValue) : Bool :=
  match msgField m (sChars "type") with
  | some (.jstr s) => s = sChars "response"
  | _ => false

/-- `msg['request_seq'] === requestSeq`. -/
def hasRequestSeq (m : JValue) (requestSeq : Int) : Bool :=
  match msgField m (sChars "request_seq") with
  | some (.jnum n) => n = requestSeq
  | _ => false

/-- `msg.type === 'event' && msg['event'] === 'stopped'`. -/
def isStoppedEventMsg (m : JValue) : Bool :=
  (match msgField m (sChars "type") with
   | some (.jstr s) => s = sChars "event"
   | _ => false) &&
  (match msgField m (sChars "event") with
   | some (.jstr s) => s = sChars "stopped"
   | _ => false)

/-! ### Request/response correlation (`sendDAPRequest`,
`debug.service.ts` lines 1737-1812) -/

/-- `messages.find(msg => msg.type === 'response' && msg['request_seq'] ===
requestSeq)`, the selection used both by the buffer pre-check and by the
per-chunk data listener of `sendDAPRequest`. -/
def findMatchingResponse (messages : List JValue) (requestSeq : Int) : Option JValue :=
  messages.find? (fun m => isResponseMsg m && hasRequestSeq m requestSeq)

/-- One in-flight `sendDAPRequest` call: the identity of the waiting caller
and the sequence number its request carried. -/
structure PendingCall where
  callerId : Nat
  requestSeq : Int
deriving DecidableEq

/-- Effect of one stdout chunk on a set of registered listeners: every
pending call whose listener finds a matching response in the chunk resolves
with that response (each listener independently runs `parseAllDAPMessages` on
the raw chunk and `find`s by its own sequence number). -/
def deliverChunk (pending : List PendingCall) (chunk : List Char) :
    List (PendingCall × JValue) :=
  pending.filterMap fun p =>
    (findMatchingResponse (parseAllDAPMessages chunk) p.requestSeq).map
      (fun r => (p, r))

/-- Timeout handler of `sendDAPRequest`: `removeListener` deregisters the
caller's listener before the call rejects. -/
def deregister (pending : List PendingCall) (cid : Nat) : List PendingCall :=
  pending.filter (fun p => p.callerId ≠ cid)

/-- `seq: session.seq++` — the request takes the current counter value and
the session counter is incremented. -/
def allocSeq (seq : Int) : Int × Int := (seq, seq + 1)

/-- Sequence numbers handed out by `n` successive `sendDAPRequest` calls on a
session whose counter starts at `s`. -/
def allocSeqs : Int → Nat → List Int
  | _, 0 => []
  | s, n + 1 => (allocSeq s).1 :: allocSeqs (allocSeq s).2 n

/-! ### Session data model (`DebugSession` interface and friends).
Timestamps are modelled as integer milliseconds.  The `dapProcess` handle is
not part of the record: its time-varying `exitCode` observations are supplied
through the environment records of the operations that read it. -/

/-- The service-level `Variable` shape (`debug-session.interface.ts`). -/
structure Variable where
  name : List Char
  value : List Char
  type : Option (List Char) := none
  variablesReference : Option Int := none
deriving DecidableEq

/-- The `WitnessEntry` shape. -/
structure WitnessEntry where
  index : List Char
  value : List Char
deriving DecidableEq

/-- The `VerifiedBreakpoint` shape. -/
structure VerifiedBreakpoint where
  line : Int
  verified : Bool
  message : Option (List Char) := none
deriving DecidableEq

/-- The `DebugSession` record.  Optional TypeScript fields default to their
JavaScript-falsy/absent values (`completed?` is falsy when undefined, the
dynamic `session['outputBuffer']` starts undefined and is initialised to the
empty string by `handleDAPOutput`). -/
structure DebugSession where
  sessionId : List Char
  workspaceDir : List Char
  initialized : Bool
  seq : Int
  createdAt : Int
  lastActivity : Int
  completed : Bool := false
  completedAt : Option Int := none
  lastVariables : Option (List Variable) := none
  lastWitnesses : Option (List WitnessEntry) := none
  breakpoints : Option (List VerifiedBreakpoint) := none
  outputBuffer : List Char := []
deriving DecidableEq

/-- First-match association lookup (model of `Map.get` on the session map,
whose keys are unique). -/
def lookupAssoc {α : Type} : List (List Char × α) → List Char → Option α
  | [], _ => none
  | (k, v) :: rest, key => if k = key then some v else lookupAssoc rest key

/-! ### Process transport (`handleDAPOutput`, lines 1714-1726, and
`waitForStoppedEvent`, lines 1956-1989) -/

/-- `handleDAPOutput`: the stdout data handler only appends the chunk to the
session's accumulated `outputBuffer` (initialising it to the empty string
first if it was undefined); it parses nothing, dispatches nothing and never
removes consumed bytes. -/
def handleDAPOutput (session : DebugSession) (data : List Char) : DebugSession :=
  { session with outputBuffer := session.outputBuffer ++ data }

/-- The buffer pre-check of `waitForStoppedEvent`: if the accumulated buffer
is non-empty, parse all messages in it and take the first `stopped` event. -/
def waitForStoppedCheck (session : DebugSession) : Option JValue :=
  if session.outputBuffer ≠ [] then
    (parseAllDAPMessages session.outputBuffer).find? isStoppedEventMsg
  else none

/-- Outcome of `waitForStoppedEvent` at registration time: either the promise
resolves immediately from the buffer, or a data listener is registered and
resolution waits for future chunks. -/
inductive WaitOutcome where
  | resolved (e : JValue)
  | listening

/-- `waitForStoppedEvent`: check the accumulated buffer first and resolve
immediately on a hit; otherwise register a listener.  The session (in
particular its buffer) is not modified in either case. -/
def waitForStoppedEvent (session : DebugSession) : WaitOutcome × DebugSession :=
  match waitForStoppedCheck session with
  | some e => (.resolved e, session)
  | none => (.listening, session)

/-! ### Step execution (`executeStep`, lines 1096-1253, and
`mapStepCommandToDAP`, lines 2067-2084) -/

/-- The `DebugState` shape returned to the client. -/
structure DebugState where
  sessionId : List Char
  stopped : Bool
  reason : Option (List Char) := none
  sourceLine : Option Int := none
  sourceFile : Option (List Char) := none
  threadId : Option Int := none
  frameId : Option Int := none
deriving DecidableEq

/-- The `StepResult` shape. -/
structure StepResult where
  success : Bool
  state : Option DebugState := none
  error : Option (List Char) := none
deriving DecidableEq

/-- The fields of a resolved `DAPResponse` consumed by `executeStep`. -/
structure DAPCallResult where
  success : Bool
  message : Option (List Char) := none
deriving DecidableEq

/-- The `body.reason` / `body.threadId` fields of a `stopped` event. -/
structure StoppedEvtInfo where
  reason : List Char
  threadId : Option Int := none
deriving DecidableEq

/-- Environment of one `executeStep` call: the outcomes of its awaited
operations and the values of `session.dapProcess.exitCode` at the moments the
code reads it.  `none` for an awaited outcome means the promise rejected
(`sendDAPRequest` timeout, `waitForStoppedEvent` timeout, or the
`getCurrentDebugState` stack-trace request timing out). -/
structure StepEnv where
  stepResponse : Option DAPCallResult
  stoppedEvt : Option StoppedEvtInfo
  exitCodeAfterStopped : Option Int
  exitCodeAtEventCatch : Option Int
  stateResult : Option DebugState
  sessionAtOuterCatch : Option (Option Int)
deriving DecidableEq

/-- The `reason: 'completed'` success state built at all three
program-finished detection sites of `executeStep`. -/
def completedState (sessionId : List Char) : DebugState :=
  { sessionId := sessionId, stopped := true, reason := some (sChars "completed") }

/-- The message of a rejected `sendDAPRequest` promise
(`DAP request timeout: <command> (<ms>ms)`); only its truthiness matters to
the code that observes it. -/
def strDAPRequestTimeout : List Char := sChars "DAP request timeout"

/-- The message of a rejected `waitForStoppedEvent` promise. -/
def strStoppedTimeout : List Char := sChars "Timeout waiting for stopped event"

/-- Inner `try` of `executeStep` (from `waitForStoppedEvent` to the success
return).  The diagnostic stack-trace logging and the variable/witness caching
run inside their own `try`/`catch` blocks that swallow every error, so they
cannot change the returned value. -/
def executeStepInner (session : DebugSession) (env : StepEnv) :
    Except (List Char) StepResult :=
  match env.stoppedEvt with
  | none => .error strStoppedTimeout
  | some _ev =>
    if env.exitCodeAfterStopped ≠ none then
      .ok { success := true, state := some (completedState session.sessionId) }
    else
      match env.stateResult with
      | none => .error strDAPRequestTimeout
      | some st => .ok { success := true, state := some st }

/-- Outer `try` of `executeStep`: send the step request, fail early on an
unsuccessful response, then run the inner block; the inner `catch (eventError)`
returns the completed state if the process has exited and rethrows
otherwise. -/
def executeStepTry (session : DebugSession) (env : StepEnv) :
    Except (List Char) StepResult :=
  match env.stepResponse with
  | none => .error strDAPRequestTimeout
  | some resp =>
    if resp.success = false then
      .ok { success := false,
            error := some ((resp.message).getD (sChars "Step command failed")) }
    else
      match executeStepInner session env with
      | .ok r => .ok r
      | .error e =>
        if env.exitCodeAtEventCatch ≠ none then
          .ok { success := true, state := some (completedState session.sessionId) }
        else .error e

/-- `executeStep`: session lookup and `initialized` guard, the `try` body,
and the outer `catch` which re-reads the sessions map
(`env.sessionAtOuterCatch` is the re-lookup outcome together with the exit
code of that session's process at that moment). -/
def executeStep (sessions : List (List Char × DebugSession)) (env : StepEnv)
    (sessionId : List Char) : StepResult :=
  match lookupAssoc sessions sessionId with
  | none => { success := false, error := some (sChars "Session not found") }
  | some session =>
    if session.initialized = false then
      { success := false, error := some (sChars "Session not initialized") }
    else
      match executeStepTry session env with
      | .ok r => r
      | .error e =>
        match env.sessionAtOuterCatch with
        | some (some _c) =>
          { success := true, state := some (completedState sessionId) }
        | _ =>
          { success := false,
            error := some (if e.isEmpty then sChars "Step command failed" else e) }

/-- The `commandMap` literal of `mapStepCommandToDAP`. -/
def commandMap : List (List Char × List Char) :=
  [(sChars "next", sChars "next"),
   (sChars "into", sChars "stepIn"),
   (sChars "out", sChars "stepOut"),
   (sChars "over", sChars "next"),
   (sChars "continue", sChars "continue"),
   (sChars "step", sChars "next")]

/-- `mapStepCommandToDAP`: `commandMap[command] || command` (every mapped
value is a non-empty, hence truthy, string; a missing key yields `undefined`
and falls back to the input). -/
def mapStepCommandToDAP (command : List Char) : List Char :=
  (lookupAssoc commandMap command).getD command

/-! ### Variable and witness inspection (`getVariables`, lines 1258-1344,
and `getWitnessMap`, lines 1350-1446) -/

/-- The fields of a DAP stack frame consumed by the service (only `id`). -/
structure StackFrameInfo where
  id : Int
deriving DecidableEq

/-- The fields of a DAP scope consumed by the service. -/
structure ScopeInfo where
  name : List Char
  variablesReference : Int
deriving DecidableEq

/-- The fields of a DAP variable consumed by the service. -/
structure VariableInfo where
  name : List Char
  value : List Char
  type : Option (List Char) := none
  variablesReference : Int := 0
deriving DecidableEq

/-- Environment of one inspection call (`getVariables` or `getWitnessMap`):
the outcome of each DAP request it can issue, in protocol order.  `none`
means the request's promise rejected (timeout); `some (success, body)` is a
resolved response with its success flag and the body fields the code reads
(`body?.stackFrames`, `body?.scopes`, `body?.variables` — the inner `Option`
models an absent `variables` list on an otherwise successful response). -/
structure InspectEnv where
  stackTrace : Option (Bool × List StackFrameInfo)
  scopes : Option (Bool × List ScopeInfo)
  variablesResponse : Option (Bool × Option (List VariableInfo))
deriving DecidableEq

/-- The `VariablesResult` shape (the TypeScript field `variables` is spelled
`vars` here because `variables` is reserved by Lean). -/
structure VariablesResult where
  success : Bool
  vars : Option (List Variable) := none
  error : Option (List Char) := none
deriving DecidableEq

/-- The `WitnessResult` shape. -/
structure WitnessResult where
  success : Bool
  witnesses : Option (List WitnessEntry) := none
  error : Option (List Char) := none
deriving DecidableEq

/-- Mapping of a DAP variable to the service `Variable` shape. -/
def toVariable (v : VariableInfo) : Variable :=
  { name := v.name, value := v.value, type := v.type,
    variablesReference := some v.variablesReference }

/-- Mapping of a DAP variable to a witness entry (`index` is the DAP
variable's name, e.g. `_0`). -/
def toWitnessEntry (v : VariableInfo) : WitnessEntry :=
  { index := v.name, value := v.value }

/-- `getVariables`.  The second component of the result lists the DAP
commands actually sent to the subprocess during the call. -/
def getVariables (sessions : List (List Char × DebugSession)) (env : InspectEnv)
    (sessionId : List Char) : VariablesResult × List (List Char) :=
  match lookupAssoc sessions sessionId with
  | none =>
    ({ success := false, error := some (sChars "Session not found or not initialized") }, [])
  | some session =>
    if session.initialized = false then
      ({ success := false, error := some (sChars "Session not found or not initialized") }, [])
    else if session.completed then
      ({ success := true, vars := some (session.lastVariables.getD []) }, [])
    else
      match env.stackTrace with
      | none =>
        ({ success := false, error := some strDAPRequestTimeout }, [sChars "stackTrace"])
      | some (stSucc, frames) =>
        if stSucc = false ∨ frames = [] then
          ({ success := false, error := some (sChars "No stack frames available") },
           [sChars "stackTrace"])
        else
          match env.scopes with
          | none =>
            ({ success := false, error := some strDAPRequestTimeout },
             [sChars "stackTrace", sChars "scopes"])
          | some (scSucc, scopes) =>
            if scSucc = false ∨ scopes = [] then
              ({ success := false, error := some (sChars "No scopes available") },
               [sChars "stackTrace", sChars "scopes"])
            else
              match env.variablesResponse with
              | none =>
                ({ success := false, error := some strDAPRequestTimeout },
                 [sChars "stackTrace", sChars "scopes", sChars "variables"])
              | some (vSucc, body) =>
                if vSucc = false then
                  ({ success := false, error := some (sChars "Failed to fetch variables") },
                   [sChars "stackTrace", sChars "scopes", sChars "variables"])
                else
                  ({ success := true,
                     vars := some ((body.getD []).map toVariable) },
                   [sChars "stackTrace", sChars "scopes", sChars "variables"])

/-- `getWitnessMap`: the same three-hop pattern, but selecting the scope
named `Witness Map` instead of the first scope. -/
def getWitnessMap (sessions : List (List Char × DebugSession)) (env : InspectEnv)
    (sessionId : List Char) : WitnessResult × List (List Char) :=
  match lookupAssoc sessions sessionId with
  | none =>
    ({ success := false, error := some (sChars "Session not found or not initialized") }, [])
  | some session =>
    if session.initialized = false then
      ({ success := false, error := some (sChars "Session not found or not initialized") }, [])
    else if session.completed then
      ({ success := true, witnesses := some (session.lastWitnesses.getD []) }, [])
    else
      match env.stackTrace with
      | none =>
        ({ success := false, error := some strDAPRequestTimeout }, [sChars "stackTrace"])
      | some (stSucc, frames) =>
        if stSucc = false ∨ frames = [] then
          ({ success := false, error := some (sChars "No stack frames available") },
           [sChars "stackTrace"])
        else
          match env.scopes with
          | none =>
            ({ success := false, error := some strDAPRequestTimeout },
             [sChars "stackTrace", sChars "scopes"])
          | some (scSucc, scopes) =>
            if scSucc = false ∨ scopes = [] then
              ({ success := false, error := some (sChars "No scopes available") },
               [sChars "stackTrace", sChars "scopes"])
            else
              match scopes.find? (fun sc => sc.name = sChars "Witness Map") with
              | none =>
                ({ success := false, error := some (sChars "Witness Map scope not found") },
                 [sChars "stackTrace", sChars "scopes"])
              | some _witnessScope =>
                match env.variablesResponse with
                | none =>
                  ({ success := false, error := some strDAPRequestTimeout },
                   [sChars "stackTrace", sChars "scopes", sChars "variables"])
                | some (vSucc, body) =>
                  if vSucc = false then
                    ({ success := false,
                       error := some (sChars "Failed to fetch witness variables") },
                     [sChars "stackTrace", sChars "scopes", sChars "variables"])
                  else
                    ({ success := true,
                       witnesses := some ((body.getD []).map toWitnessEntry) },
                     [sChars "stackTrace", sChars "scopes", sChars "variables"])

/-! ### Termination and lifecycle (`terminateSession`, lines 1597-1669;
`cleanupWorkspace`, lines 2113-2120; `setupProcessHandlers` exit handler,
lines 1688-1704; `startSession`, lines 1002-1091; `cleanupStaleSessions`,
lines 2145-2156) -/

/-- Observable side effects of a termination run, in program order. -/
inductive TermAction where
  | disconnectAttempt
  | disconnectOk
  | disconnectFailed
  | sigterm
  | sigkill
  | cleanup (dir : List Char)
  | evict (id : List Char)
deriving DecidableEq

/-- Environment of one `terminateSession` call: whether the graceful
disconnect request fails or times out, whether the `kill` syscalls throw, the
values of `dapProcess.exitCode` at the three moments the code reads it, and
whether the recursive filesystem removal fails (those errors are swallowed
inside `cleanupWorkspace`/`removeDirectoryRecursive`). -/
structure TermEnv where
  exitCodeBeforeDisconnect : Option Int
  disconnectFails : Bool
  exitCodeBeforeKill : Option Int
  sigtermThrows : Bool
  exitCodeAfterSigterm : Option Int
  sigkillThrows : Bool
  fsRemoveFails : Bool
deriving DecidableEq

/-- Global service state: the live-session map and the set of existing
workspace directories on disk. -/
structure ServerState where
  sessions : List (List Char × DebugSession)
  fs : List (List Char)

/-- `sessions.delete(sessionId)`. -/
def deleteSession (st : ServerState) (sessionId : List Char) : ServerState :=
  { st with sessions := st.sessions.filter (fun p => p.1 ≠ sessionId) }

/-- `cleanupWorkspace`: remove the directory recursively; every filesystem
error is caught and logged, so the call never throws.  Returns the updated
filesystem and the recorded cleanup attempt. -/
def cleanupWorkspace (fs : List (List Char)) (fsRemoveFails : Bool)
    (workspaceDir : List Char) : List (List Char) × List TermAction :=
  if fsRemoveFails then (fs, [.cleanup workspaceDir])
  else (fs.filter (fun d => d ≠ workspaceDir), [.cleanup workspaceDir])

/-- Step 1 of `terminateSession`: the graceful disconnect, attempted only
when the session is initialized and the process has not exited; its failure
or timeout is caught by the inner `try`/`catch` and never escapes. -/
def disconnectPhase (session : DebugSession) (env : TermEnv) : List TermAction :=
  if session.initialized = true ∧ env.exitCodeBeforeDisconnect = none then
    if env.disconnectFails then [.disconnectAttempt, .disconnectFailed]
    else [.disconnectAttempt, .disconnectOk]
  else []

/-- Steps 2-5 of `terminateSession`: SIGTERM, the two-second wait, and the
SIGKILL escalation.  The boolean is `true` when a `kill` call threw, which
transfers control to the outer `catch`. -/
def killPhase (env : TermEnv) : List TermAction × Bool :=
  if env.exitCodeBeforeKill = none then
    if env.sigtermThrows then ([.sigterm], true)
    else if env.exitCodeAfterSigterm = none then
      if env.sigkillThrows then ([.sigterm, .sigkill], true)
      else ([.sigterm, .sigkill], false)
    else ([.sigterm], false)
  else ([], false)

/-- `terminateSession`: graceful disconnect, force-kill escalation, then —
on the normal path and on the outer `catch` path alike — workspace cleanup
followed by removal from the sessions map.  Returns the new state, the
boolean result, and the trace of actions in program order. -/
def terminateSession (st : ServerState) (env : TermEnv) (sessionId : List Char) :
    ServerState × Bool × List TermAction :=
  match lookupAssoc st.sessions sessionId with
  | none => (st, false, [])
  | some session =>
    let dActs := disconnectPhase session env
    let kp := killPhase env
    let c := cleanupWorkspace st.fs env.fsRemoveFails session.workspaceDir
    let st2 := deleteSession { st with fs := c.1 } sessionId
    if kp.2 then
      (st2, false, dActs ++ kp.1 ++ c.2 ++ [.evict sessionId])
    else
      (st2, true, dActs ++ kp.1 ++ c.2 ++ [.evict sessionId])

/-- The ordered sub-steps of a successful `startSession` call. -/
inductive StartStep where
  | mkdirWorkspace
  | writeSourceFiles
  | compileProgram
  | spawnDapProcess
  | registerSession
  | setupHandlers
  | handshake
deriving DecidableEq

/-- `startSession` performs its sub-steps in this order (lines 1013, 1017,
1032, 1039, 1055, 1058 and 1061-1067). -/
def startSessionSteps : List StartStep :=
  [.mkdirWorkspace, .writeSourceFiles, .compileProgram, .spawnDapProcess,
   .registerSession, .setupHandlers, .handshake]

/-- Net state effect of a fully successful `startSession`: the workspace
directory is created and the session is registered. -/
def startSessionOk (st : ServerState) (sessionId : List Char)
    (session : DebugSession) : ServerState :=
  { sessions := st.sessions ++ [(sessionId, session)],
    fs := st.fs ++ [session.workspaceDir] }

/-- Net state effect of a `startSession` whose DAP handshake throws after
the session was registered: the `catch` block runs `cleanupWorkspace` but
contains no `sessions.delete`, so the registered session stays in the map
while its workspace directory is removed. -/
def startSessionHandshakeFail (st : ServerState) (sessionId : List Char)
    (session : DebugSession) : ServerState :=
  { sessions := st.sessions ++ [(sessionId, session)],
    fs := (st.fs ++ [session.workspaceDir]).filter
      (fun d => d ≠ session.workspaceDir) }

/-- The `exit` handler of `setupProcessHandlers`: mark the session completed
(no deletion, no workspace cleanup). -/
def processExitMark (st : ServerState) (sessionId : List Char) (now : Int) :
    ServerState :=
  { st with
    sessions := st.sessions.map fun p =>
      if p.1 = sessionId then
        (p.1, { p.2 with completed := true, completedAt := some now })
      else p }

/-- The 30-second grace timer scheduled by the `exit` handler: if the session
still exists, delete it from the map.  The workspace directory is not
touched. -/
def graceEvict (st : ServerState) (sessionId : List Char) : ServerState :=
  { st with sessions := st.sessions.filter (fun p => p.1 ≠ sessionId) }

/-- `SESSION_TIMEOUT_MS = 10 * 60 * 1000`. -/
def SESSION_TIMEOUT_MS : Int := 10 * 60 * 1000

/-- The sessions whose inactive time exceeds the timeout at sweep time. -/
def staleIds (st : ServerState) (now : Int) : List (List Char) :=
  (st.sessions.filter
    (fun p => SESSION_TIMEOUT_MS < now - p.2.lastActivity)).map (fun p => p.1)

/-- `cleanupStaleSessions`: terminate every stale session through the same
`terminateSession` path as an explicit request. -/
def cleanupStaleSessions (st : ServerState) (env : TermEnv) (now : Int) :
    ServerState :=
  (staleIds st now).foldl (fun s id => (terminateSession s env id).1) st

/-- The invariant claimed for the data model: a workspace directory exists on
disk if and only if the owning session is present in the sessions map. -/
def sessionDirInvariant (st : ServerState) : Prop :=
  (∀ id session, lookupAssoc st.sessions id = some session →
    session.workspaceDir ∈ st.fs) ∧
  (∀ dir ∈ st.fs, ∃ id session,
    lookupAssoc st.sessions id = some session ∧ session.workspaceDir = dir)

/-! ### Recursion measures and side conditions for the JSON parser proofs -/

mutual

/-- Fuel needed by `parseValue` to parse a serialized value. -/
def jsizeV : JValue → Nat
  | .jnull => 1
  | .jbool _ => 1
  | .jnum _ => 1
  | .jstr _ => 1
  | .jarr xs => 1 + jsizeElems xs
  | .jobj ms => 1 + jsizeMembers ms

/-- Fuel needed by `parseElems`. -/
def jsizeElems : List JValue → Nat
  | [] => 0
  | v :: rest => 1 + jsizeV v + jsizeElems rest

/-- Fuel needed by `parseMembers`. -/
def jsizeMembers : List (List Char × JValue) → Nat
  | [] => 0
  | m :: rest => 1 + jsizeV m.2 + jsizeMembers rest

end

/-- Side condition for parsing a serialized value followed by `rest`: when the
value is a number, `rest` must not begin with a digit (the greedy digit run
would otherwise swallow it).  Inside arrays and objects the next character is
always a comma or closing bracket, so the condition holds. -/
def numSafe (v : JValue) (rest : List Char) : Prop :=
  match v with
  | .jnum _ => ∀ c, rest.head? = some c → c.isDigit = false
  | _ => True

/-! ### Concrete instances used by the per-claim witnesses and
counterexamples -/

/-- A concrete DAP response message (`request_seq` 3). -/
def c1Resp : JValue :=
  .jobj [(sChars "seq", .jnum 5), (sChars "type", .jstr (sChars "response")),
         (sChars "request_seq", .jnum 3), (sChars "success", .jbool true),
         (sChars "command", .jstr (sChars "next"))]

/-- A stdout chunk carrying exactly `c1Resp`. -/
def c1Chunk : List Char := formatDAPMessage c1Resp

/-- A concrete complete response message for the C2 scenario. -/
def c2M1 : JValue :=
  .jobj [(sChars "seq", .jnum 1), (sChars "type", .jstr (sChars "response")),
         (sChars "request_seq", .jnum 1), (sChars "success", .jbool true)]

/-- A concrete `stopped` event for the C2 scenario. -/
def c2M2 : JValue :=
  .jobj [(sChars "seq", .jnum 2), (sChars "type", .jstr (sChars "event")),
         (sChars "event", .jstr (sChars "stopped"))]

/-- First inbound chunk: one complete message plus the first ten characters
(an incomplete header) of the next message. -/
def c2ChunkA : List Char :=
  formatDAPMessage c2M1 ++ (formatDAPMessage c2M2).take 10

/-- Second inbound chunk: the remaining bytes of the split message. -/
def c2ChunkB : List Char := (formatDAPMessage c2M2).drop 10

/-- A freshly initialized session with an empty receive buffer. -/
def c2Session : DebugSession :=
  { sessionId := sChars "c2s", workspaceDir := sChars "c2w",
    initialized := true, seq := 1, createdAt := 0, lastActivity := 0 }

/-- A concrete `stopped` event message for the C3 scenario. -/
def c3StoppedMsg : JValue :=
  .jobj [(sChars "seq", .jnum 7), (sChars "type", .jstr (sChars "event")),
         (sChars "event", .jstr (sChars "stopped")),
         (sChars "body", .jobj [(sChars "reason", .jstr (sChars "step"))])]

/-- A session whose accumulated buffer already holds a `stopped` event. -/
def c3Session : DebugSession :=
  { sessionId := sChars "c3s", workspaceDir := sChars "c3w",
    initialized := true, seq := 2, createdAt := 0, lastActivity := 0,
    outputBuffer := formatDAPMessage c3StoppedMsg }

/-- A concrete session for the C4 witness. -/
def c4Session : DebugSession :=
  { sessionId := sChars "c4s", workspaceDir := sChars "c4w",
    initialized := true, seq := 3, createdAt := 0, lastActivity := 0 }

/-- Concrete termination environment: process already dead, disconnect
skipped, filesystem healthy. -/
def c4Env : TermEnv :=
  { exitCodeBeforeDisconnect := some 0, disconnectFails := false,
    exitCodeBeforeKill := some 0, sigtermThrows := false,
    exitCodeAfterSigterm := some 0, sigkillThrows := false,
    fsRemoveFails := false }

/-- Concrete starting state for the C4 witness. -/
def c4State : ServerState :=
  { sessions := [(sChars "c4s", c4Session)], fs := [sChars "c4w"] }

/-- A concrete session for the C5 scenario. -/
def c5Session : DebugSession :=
  { sessionId := sChars "c5s", workspaceDir := sChars "c5w",
    initialized := true, seq := 1, createdAt := 0, lastActivity := 0 }

/-- The C5 counterexample state: a successful start, then the subprocess
exits on its own (exit handler marks the session completed), then the
30-second grace timer evicts the session.  No step of this sequence removes
the workspace directory. -/
def c5State : ServerState :=
  graceEvict
    (processExitMark (startSessionOk { sessions := [], fs := [] }
        (sChars "c5s") c5Session)
      (sChars "c5s") 100)
    (sChars "c5s")

/-- A concrete session for the C6 witness. -/
def c6Session : DebugSession :=
  { sessionId := sChars "c6s", workspaceDir := sChars "c6w",
    initialized := true, seq := 4, createdAt := 0, lastActivity := 0 }

/-- Concrete step environment: step request succeeds, the stopped event
arrives, and the process is then observed to have exited. -/
def c6Env : StepEnv :=
  { stepResponse := some { success := true },
    stoppedEvt := some { reason := sChars "step" },
    exitCodeAfterStopped := some 0,
    exitCodeAtEventCatch := none,
    stateResult := none,
    sessionAtOuterCatch := none }

/-- C7 counterexample session: completed flag set but handshake never
finished (`initialized = false`) — the shape left behind in the sessions map
when the subprocess exits during the handshake and `startSession`'s `catch`
block runs (it deregisters nothing). -/
def c7Session : DebugSession :=
  { sessionId := sChars "c7s", workspaceDir := sChars "c7w",
    initialized := false, seq := 1, createdAt := 0, lastActivity := 0,
    completed := true,
    lastVariables := some [{ name := sChars "x", value := sChars "5" }],
    lastWitnesses := some [{ index := sChars "_0", value := sChars "5" }] }

/-- Inspection environment in which every DAP request would time out (a dead
subprocess answers nothing). -/
def c7Env : InspectEnv :=
  { stackTrace := none, scopes := none, variablesResponse := none }

/-- C7 witness session: initialized and completed, with a cached snapshot. -/
def c7wSession : DebugSession :=
  { sessionId := sChars "c7t", workspaceDir := sChars "c7v",
    initialized := true, seq := 9, createdAt := 0, lastActivity := 0,
    completed := true,
    lastVariables := some [{ name := sChars "y", value := sChars "8" }],
    lastWitnesses := none }

/-- C8 session: initialized, still running. -/
def c8Session : DebugSession :=
  { sessionId := sChars "c8s", workspaceDir := sChars "c8w",
    initialized := true, seq := 2, createdAt := 0, lastActivity := 0 }

/-- C8 environment: the stack-trace request succeeds but reports no
frames. -/
def c8Env : InspectEnv :=
  { stackTrace := some (true, []), scopes := none, variablesResponse := none }

/-! ## Helper lemmas -/

/-- Looking up a key in a list filtered to exclude it yields nothing. -/
theorem lookupAssoc_filter_self {α : Type} (l : List (List Char × α)) (id : List Char) :
    lookupAssoc (l.filter (fun p => p.1 ≠ id)) id = none := by
  induction l with
  | nil => rfl
  | cons hd tl ih =>
    by_cases hk : hd.1 = id
    · simpa [List.filter, hk] using ih
    · simpa [List.filter, hk, lookupAssoc] using ih

/-- Filtering cannot make an absent key appear. -/
theorem lookupAssoc_filter_of_none {α : Type} (l : List (List Char × α))
    (p : List Char × α → Bool) (id : List Char)
    (h : lookupAssoc l id = none) : lookupAssoc (l.filter p) id = none := by
  induction l with
  | nil => rfl
  | cons hd tl ih =>
    simp only [lookupAssoc] at h
    by_cases hk : hd.1 = id
    · simp [hk] at h
    · have h' := ih (by simpa [lookupAssoc, hk] using h)
      by_cases hp : p hd
      · simpa [List.filter, hp, lookupAssoc, hk] using h'
      · simpa [List.filter, hp] using h'

/-- Appending after a miss continues the lookup in the suffix. -/
theorem lookupAssoc_append_of_none {α : Type} (l l2 : List (List Char × α))
    (id : List Char) (h : lookupAssoc l id = none) :
    lookupAssoc (l ++ l2) id = lookupAssoc l2 id := by
  induction l with
  | nil => rfl
  | cons hd tl ih =>
    simp only [lookupAssoc] at h ⊢
    by_cases hk : hd.1 = id
    · simp [hk] at h
    · simpa [hk] using ih (by simpa [hk] using h)

/-! ## C9 — step-command mapping -/

/-- C9: `mapStepCommandToDAP` maps `into` to `stepIn`, `out` to `stepOut`,
`over` and `step` to `next`, leaves `next` and `continue` unchanged, and
returns every other command string unchanged. -/
theorem mapStepCommandToDAP_spec :
    mapStepCommandToDAP (sChars "into") = sChars "stepIn" ∧
    mapStepCommandToDAP (sChars "out") = sChars "stepOut" ∧
    mapStepCommandToDAP (sChars "over") = sChars "next" ∧
    mapStepCommandToDAP (sChars "step") = sChars "next" ∧
    mapStepCommandToDAP (sChars "next") = sChars "next" ∧
    mapStepCommandToDAP (sChars "continue") = sChars "continue" ∧
    ∀ command : List Char,
      command ≠ sChars "next" → command ≠ sChars "into" →
      command ≠ sChars "out" → command ≠ sChars "over" →
      command ≠ sChars "continue" → command ≠ sChars "step" →
      mapStepCommandToDAP command = command := by
  refine ⟨by decide, by decide, by decide, by decide, by decide, by decide, ?_⟩
  intro command h1 h2 h3 h4 h5 h6
  simp [mapStepCommandToDAP, commandMap, lookupAssoc,
    Ne.symm h1, Ne.symm h2, Ne.symm h3, Ne.symm h4, Ne.symm h5, Ne.symm h6]

/-- C9 witness: an unknown command string passes through unchanged. -/
theorem mapStepCommandToDAP_spec_witness :
    mapStepCommandToDAP (sChars "stepIn") = sChars "stepIn" :=
  mapStepCommandToDAP_spec.2.2.2.2.2.2 (sChars "stepIn")
    (by decide) (by decide) (by decide) (by decide) (by decide) (by decide)

/-! ## C7 — cached snapshots after completion -/

/-- C7 counterexample: the claim quantifies over *every* session whose
`completed` flag is set, but a session that is completed yet not initialized
(left in the map when the subprocess exits during the handshake, since
`startSession`'s `catch` never deletes the registered session) is answered
with the `Session not found or not initialized` failure, not with the cached
snapshot. -/
theorem getVariables_completed_uninitialized_fails :
    c7Session.completed = true ∧
    (getVariables [(sChars "c7s", c7Session)] c7Env (sChars "c7s")).1 =
      { success := false,
        error := some (sChars "Session not found or not initialized") } ∧
    (getWitnessMap [(sChars "c7s", c7Session)] c7Env (sChars "c7s")).1 =
      { success := false,
        error := some (sChars "Session not found or not initialized") } := by
  refine ⟨rfl, rfl, rfl⟩

/-- C7 (amended): for every *initialized* session whose `completed` flag is
set, `getVariables` and `getWitnessMap` return success with the cached
`lastVariables` / `lastWitnesses` snapshot (empty when none was cached) and
send no DAP request to the subprocess. -/
theorem getVariables_getWitnessMap_completed
    (sessions : List (List Char × DebugSession)) (env : InspectEnv)
    (sessionId : List Char) (session : DebugSession)
    (hlk : lookupAssoc sessions sessionId = some session)
    (hinit : session.initialized = true)
    (hcomp : session.completed = true) :
    getVariables sessions env sessionId =
      ({ success := true, vars := some (session.lastVariables.getD []) }, []) ∧
    getWitnessMap sessions env sessionId =
      ({ success := true, witnesses := some (session.lastWitnesses.getD []) }, []) := by
  constructor
  · simp [getVariables, hlk, hinit, hcomp]
  · simp [getWitnessMap, hlk, hinit, hcomp]

/-- C7 witness: a concrete initialized, completed session is answered from
its cache with no request sent. -/
theorem getVariables_getWitnessMap_completed_witness :
    getVariables [(sChars "c7t", c7wSession)] c7Env (sChars "c7t") =
      ({ success := true, vars := some (c7wSession.lastVariables.getD []) }, []) ∧
    getWitnessMap [(sChars "c7t", c7wSession)] c7Env (sChars "c7t") =
      ({ success := true, witnesses := some (c7wSession.lastWitnesses.getD []) }, []) :=
  getVariables_getWitnessMap_completed
    [(sChars "c7t", c7wSession)] c7Env (sChars "c7t") c7wSession
    (by decide) (by decide) (by decide)

/-! ## C8 — missing frames/scopes/witness scope -/

/-- C8 counterexample: a stack-trace response with no frames makes
`getVariables` (and `getWitnessMap`) return a *failure*
(`success: false`, `No stack frames available`), not a successful response
with an empty result as the claim states. -/
theorem getVariables_noFrames_isFailure :
    (getVariables [(sChars "c8s", c8Session)] c8Env (sChars "c8s")).1 =
      { success := false, error := some (sChars "No stack frames available") } ∧
    (getWitnessMap [(sChars "c8s", c8Session)] c8Env (sChars "c8s")).1 =
      { success := false, error := some (sChars "No stack frames available") } ∧
    (getVariables [(sChars "c8s", c8Session)] c8Env (sChars "c8s")).1.success = false := by
  refine ⟨rfl, rfl, rfl⟩

/-- C8 (amended): when the stack trace carries no frames, the scopes
response carries no scopes, or no scope named `Witness Map` exists,
`getVariables` / `getWitnessMap` report these conditions as call failures
(`success: false` with a descriptive error message); only a successful
variables response whose body lacks the `variables` list is reported as
success with an empty list. -/
theorem inspect_missing_data_results
    (sessions : List (List Char × DebugSession)) (env : InspectEnv)
    (sessionId : List Char) (session : DebugSession)
    (hlk : lookupAssoc sessions sessionId = some session)
    (hinit : session.initialized = true)
    (hcomp : session.completed = false) :
    (∀ stSucc frames, env.stackTrace = some (stSucc, frames) →
      stSucc = false ∨ frames = [] →
      (getVariables sessions env sessionId).1 =
        { success := false, error := some (sChars "No stack frames available") } ∧
      (getWitnessMap sessions env sessionId).1 =
        { success := false, error := some (sChars "No stack frames available") }) ∧
    (∀ frames scSucc scopes, env.stackTrace = some (true, frames) → frames ≠ [] →
      env.scopes = some (scSucc, scopes) → scSucc = false ∨ scopes = [] →
      (getVariables sessions env sessionId).1 =
        { success := false, error := some (sChars "No scopes available") } ∧
      (getWitnessMap sessions env sessionId).1 =
        { success := false, error := some (sChars "No scopes available") }) ∧
    (∀ frames scopes, env.stackTrace = some (true, frames) → frames ≠ [] →
      env.scopes = some (true, scopes) → scopes ≠ [] →
      scopes.find? (fun sc => sc.name = sChars "Witness Map") = none →
      (getWitnessMap sessions env sessionId).1 =
        { success := false, error := some (sChars "Witness Map scope not found") }) ∧
    (∀ frames scopes, env.stackTrace = some (true, frames) → frames ≠ [] →
      env.scopes = some (true, scopes) → scopes ≠ [] →
      env.variablesResponse = some (true, none) →
      (getVariables sessions env sessionId).1 =
        { success := true, vars := some [] }) := by
  refine ⟨?_, ?_, ?_, ?_⟩
  · intro stSucc frames hst hbad
    constructor
    · simp [getVariables, hlk, hinit, hcomp, hst, hbad]
    · simp [getWitnessMap, hlk, hinit, hcomp, hst, hbad]
  · intro frames scSucc scopes hst hne hsc hbad
    constructor
    · simp [getVariables, hlk, hinit, hcomp, hst, hne, hsc, hbad]
    · simp [getWitnessMap, hlk, hinit, hcomp, hst, hne, hsc, hbad]
  · intro frames scopes hst hne hsc hne2 hfind
    simp [getWitnessMap, hlk, hinit, hcomp, hst, hne, hsc, hne2, hfind]
  · intro frames scopes hst hne hsc hne2 hv
    simp [getVariables, hlk, hinit, hcomp, hst, hne, hsc, hne2, hv]

/-- C8 witness: the no-frames case at a concrete session and environment. -/
theorem inspect_missing_data_results_witness :
    (getVariables [(sChars "c8s", c8Session)] c8Env (sChars "c8s")).1 =
      { success := false, error := some (sChars "No stack frames available") } :=
  ((inspect_missing_data_results [(sChars "c8s", c8Session)] c8Env
      (sChars "c8s") c8Session (by decide) (by decide) (by decide)).1
    true [] (by decide) (Or.inr rfl)).1

/-! ## C6 — subprocess exit during a step is a successful completion -/

/-- C6: if the subprocess's exit code is observed non-null while
`executeStep` handles a step command — after the stopped event arrives, in
the catch around the stopped-event wait, or in the outer error handler (with
the session still registered) — the call returns success with reason
`completed`. -/
theorem executeStep_processExit_completed
    (sessions : List (List Char × DebugSession)) (env : StepEnv)
    (sessionId : List Char) (session : DebugSession)
    (hlk : lookupAssoc sessions sessionId = some session)
    (hinit : session.initialized = true) :
    (∀ resp ev c, env.stepResponse = some resp → resp.success = true →
      env.stoppedEvt = some ev → env.exitCodeAfterStopped = some c →
      executeStep sessions env sessionId =
        { success := true, state := some (completedState session.sessionId) }) ∧
    (∀ resp c, env.stepResponse = some resp → resp.success = true →
      env.stoppedEvt = none → env.exitCodeAtEventCatch = some c →
      executeStep sessions env sessionId =
        { success := true, state := some (completedState session.sessionId) }) ∧
    (∀ e c, executeStepTry session env = .error e →
      env.sessionAtOuterCatch = some (some c) →
      executeStep sessions env sessionId =
        { success := true, state := some (completedState sessionId) }) := by
  refine ⟨?_, ?_, ?_⟩
  · intro resp ev c hresp hsucc hev hexit
    simp [executeStep, executeStepTry, executeStepInner, hlk, hinit, hresp,
      hsucc, hev, hexit]
  · intro resp c hresp hsucc hev hexit
    simp [executeStep, executeStepTry, executeStepInner, hlk, hinit, hresp,
      hsucc, hev, hexit]
  · intro e c htry houter
    simp [executeStep, hlk, hinit, htry, houter]

/-- C6 witness: exit detected right after the stopped event at concrete
inputs. -/
theorem executeStep_processExit_completed_witness :
    executeStep [(sChars "c6s", c6Session)] c6Env (sChars "c6s") =
      { success := true, state := some (completedState c6Session.sessionId) } :=
  (executeStep_processExit_completed [(sChars "c6s", c6Session)] c6Env
      (sChars "c6s") c6Session (by decide) (by decide)).1
    { success := true } { reason := sChars "step" } 0
    (by decide) (by decide) (by decide) (by decide)

/-! ## C4 — termination always cleans up and evicts -/

/-- `cleanupWorkspace` always records exactly one cleanup attempt. -/
theorem cleanupWorkspace_actions (fs : List (List Char)) (b : Bool)
    (dir : List Char) : (cleanupWorkspace fs b dir).2 = [.cleanup dir] := by
  unfold cleanupWorkspace
  split <;> rfl

/-- When the filesystem removal succeeds, the directory is gone. -/
theorem cleanupWorkspace_fs_removed (fs : List (List Char)) (dir : List Char) :
    dir ∉ (cleanupWorkspace fs false dir).1 := by
  simp [cleanupWorkspace, List.mem_filter]

/-- Explicit normal form of `terminateSession` on an existing session: both
the normal path and the outer-catch path run `cleanupWorkspace` and then
delete the session, differing only in the returned boolean. -/
theorem terminateSession_eq (st : ServerState) (env : TermEnv)
    (sessionId : List Char) (session : DebugSession)
    (hlk : lookupAssoc st.sessions sessionId = some session) :
    terminateSession st env sessionId =
      (deleteSession
         { st with fs := (cleanupWorkspace st.fs env.fsRemoveFails
             session.workspaceDir).1 } sessionId,
       !(killPhase env).2,
       disconnectPhase session env ++ (killPhase env).1 ++
         (cleanupWorkspace st.fs env.fsRemoveFails session.workspaceDir).2 ++
         [.evict sessionId]) := by
  unfold terminateSession
  rw [hlk]
  by_cases h : (killPhase env).2 <;> simp [h]

/-- C4: terminating an existing session always attempts workspace cleanup
and deletes the session from the map — for every combination of
already-exited subprocess, failing or timing-out disconnect, and throwing
kill steps — with eviction as the final recorded action; when the
filesystem removal itself succeeds the directory is gone from disk. -/
theorem terminateSession_cleanup_evict (st : ServerState) (env : TermEnv)
    (sessionId : List Char) (session : DebugSession)
    (hlk : lookupAssoc st.sessions sessionId = some session) :
    lookupAssoc (terminateSession st env sessionId).1.sessions sessionId = none ∧
    TermAction.cleanup session.workspaceDir ∈ (terminateSession st env sessionId).2.2 ∧
    (terminateSession st env sessionId).2.2.getLast? =
      some (.evict sessionId) ∧
    (env.fsRemoveFails = false →
      session.workspaceDir ∉ (terminateSession st env sessionId).1.fs) := by
  rw [terminateSession_eq st env sessionId session hlk]
  refine ⟨?_, ?_, ?_, ?_⟩
  · exact lookupAssoc_filter_self st.sessions sessionId
  · simp [cleanupWorkspace_actions]
  · exact List.getLast?_concat _
  · intro hfs
    rw [hfs]
    exact cleanupWorkspace_fs_removed st.fs session.workspaceDir

/-- C4 witness: a concrete session whose subprocess has already exited is
still cleaned up and evicted, eviction last. -/
theorem terminateSession_cleanup_evict_witness :
    lookupAssoc (terminateSession c4State c4Env (sChars "c4s")).1.sessions
      (sChars "c4s") = none ∧
    TermAction.cleanup (sChars "c4w") ∈
      (terminateSession c4State c4Env (sChars "c4s")).2.2 ∧
    (terminateSession c4State c4Env (sChars "c4s")).2.2.getLast? =
      some (.evict (sChars "c4s")) ∧
    (c4Env.fsRemoveFails = false →
      sChars "c4w" ∉ (terminateSession c4State c4Env (sChars "c4s")).1.fs) :=
  terminateSession_cleanup_evict c4State c4Env (sChars "c4s") c4Session
    (by decide)

/-! ## C5 — the workspace-iff-registered invariant -/

/-- Deleting a present key makes its lookup fail, on the result state of any
`terminateSession` call for that key. -/
theorem terminateSession_lookup_self (st : ServerState) (env : TermEnv)
    (id : List Char) :
    lookupAssoc (terminateSession st env id).1.sessions id = none := by
  cases hlk : lookupAssoc st.sessions id with
  | none =>
    unfold terminateSession
    rw [hlk]
    exact hlk
  | some session =>
    rw [terminateSession_eq st env id session hlk]
    exact lookupAssoc_filter_self st.sessions id

/-- `terminateSession` never adds sessions. -/
theorem terminateSession_preserves_none (st : ServerState) (env : TermEnv)
    (id x : List Char) (h : lookupAssoc st.sessions x = none) :
    lookupAssoc (terminateSession st env id).1.sessions x = none := by
  cases hlk : lookupAssoc st.sessions id with
  | none =>
    unfold terminateSession
    rw [hlk]
    exact h
  | some session =>
    rw [terminateSession_eq st env id session hlk]
    exact lookupAssoc_filter_of_none st.sessions _ x h

/-- Folding terminations over a list of ids never adds sessions. -/
theorem foldl_terminate_preserves_none (env : TermEnv) (x : List Char) :
    ∀ (l : List (List Char)) (st : ServerState),
      lookupAssoc st.sessions x = none →
      lookupAssoc ((l.foldl (fun s id => (terminateSession s env id).1) st)).sessions
        x = none := by
  intro l
  induction l with
  | nil => intro st h; exact h
  | cons a t ih =>
    intro st h
    exact ih _ (terminateSession_preserves_none st env a x h)

/-- Every id in the folded list ends up deregistered. -/
theorem foldl_terminate_mem_none (env : TermEnv) (x : List Char) :
    ∀ (l : List (List Char)) (st : ServerState), x ∈ l →
      lookupAssoc ((l.foldl (fun s id => (terminateSession s env id).1) st)).sessions
        x = none := by
  intro l
  induction l with
  | nil => intro st h; cases h
  | cons a t ih =>
    intro st h
    rcases List.mem_cons.mp h with rfl | hmem
    · exact foldl_terminate_preserves_none env x t _
        (terminateSession_lookup_self st env x)
    · exact ih _ hmem

/-- C5 counterexample: after a successful start, a spontaneous subprocess
exit, and the grace-period eviction, the session is gone from the map but its
workspace directory still exists — the claimed invariant fails on a reachable
state, because the exit-handler eviction path never removes the workspace. -/
theorem sessionDirInvariant_violated : ¬ sessionDirInvariant c5State := by
  intro h
  have hd : sChars "c5w" ∈ c5State.fs := by decide
  obtain ⟨id, session, hlk, -⟩ := h.2 _ hd
  have hempty : c5State.sessions = [] := by decide
  rw [hempty] at hlk
  exact Option.noConfusion hlk

/-- C5 (amended): the workspace is created before the session is registered,
and explicit termination — including the idle reaper, which runs the same
path — removes the workspace and evicts the session; but the invariant does
not hold on every path: the grace eviction after a spontaneous subprocess
exit removes the session while leaving its workspace on disk, and a
handshake failure removes the workspace while leaving the session
registered. -/
theorem workspace_session_lifecycle :
    (startSessionSteps.indexOf .mkdirWorkspace <
      startSessionSteps.indexOf .registerSession) ∧
    (∀ (st : ServerState) (env : TermEnv) (id : List Char)
      (session : DebugSession),
      lookupAssoc st.sessions id = some session →
      lookupAssoc (terminateSession st env id).1.sessions id = none ∧
      (env.fsRemoveFails = false →
        session.workspaceDir ∉ (terminateSession st env id).1.fs)) ∧
    (∀ (st : ServerState) (id : List Char),
      (graceEvict st id).fs = st.fs ∧
      lookupAssoc (graceEvict st id).sessions id = none) ∧
    (∀ (st : ServerState) (id : List Char) (session : DebugSession),
      lookupAssoc st.sessions id = none →
      lookupAssoc (startSessionHandshakeFail st id session).sessions id =
        some session ∧
      session.workspaceDir ∉ (startSessionHandshakeFail st id session).fs) ∧
    (∀ (st : ServerState) (env : TermEnv) (now : Int) (id : List Char),
      id ∈ staleIds st now →
      lookupAssoc (cleanupStaleSessions st env now).sessions id = none) := by
  refine ⟨by decide, ?_, ?_, ?_, ?_⟩
  · intro st env id session hlk
    rw [terminateSession_eq st env id session hlk]
    refine ⟨lookupAssoc_filter_self st.sessions id, ?_⟩
    intro hfs
    rw [hfs]
    exact cleanupWorkspace_fs_removed st.fs session.workspaceDir
  · intro st id
    exact ⟨rfl, lookupAssoc_filter_self st.sessions id⟩
  · intro st id session hnone
    constructor
    · rw [startSessionHandshakeFail]
      rw [lookupAssoc_append_of_none _ _ _ hnone]
      simp [lookupAssoc]
    · simp [startSessionHandshakeFail, List.mem_filter]
  · intro st env now id hmem
    exact foldl_terminate_mem_none env id (staleIds st now) st hmem

/-- C5 witness: the handshake-failure path at a concrete state — the session
stays registered while its workspace is gone. -/
theorem workspace_session_lifecycle_witness :
    lookupAssoc (startSessionHandshakeFail { sessions := [], fs := [] }
        (sChars "c5s") c5Session).sessions (sChars "c5s") = some c5Session ∧
    c5Session.workspaceDir ∉
      (startSessionHandshakeFail { sessions := [], fs := [] }
        (sChars "c5s") c5Session).fs :=
  workspace_session_lifecycle.2.2.2.1 { sessions := [], fs := [] }
    (sChars "c5s") c5Session (by decide)

/-! ## C3 — buffered stopped events -/

/-- C3 counterexample: a `stopped` event already in the accumulated buffer
resolves `waitForStoppedEvent` immediately — but nothing consumes it, so a
second `waitForStoppedEvent` on the same session resolves again with the very
same event, contradicting the exactly-once part of the claim. -/
theorem waitForStoppedEvent_observed_twice :
    (waitForStoppedEvent c3Session).1 = .resolved c3StoppedMsg ∧
    (waitForStoppedEvent (waitForStoppedEvent c3Session).2).1 =
      .resolved c3StoppedMsg := by
  exact ⟨rfl, rfl⟩

/-- C3 (amended): `waitForStoppedEvent` on a session whose buffer already
holds a `stopped` event resolves immediately with the first such buffered
event, without registering a listener — but buffered events are not
consumed: the session is returned unchanged and a subsequent
`waitForStoppedEvent` resolves again with the same event. -/
theorem waitForStoppedEvent_buffer_hit (session : DebugSession) (e : JValue)
    (h : waitForStoppedCheck session = some e) :
    waitForStoppedEvent session = (.resolved e, session) ∧
    waitForStoppedEvent (waitForStoppedEvent session).2 =
      (.resolved e, session) := by
  have h1 : waitForStoppedEvent session = (.resolved e, session) := by
    unfold waitForStoppedEvent
    rw [h]
  exact ⟨h1, by rw [h1]; exact h1⟩

/-- C3 witness: the concrete buffered session resolves immediately, twice. -/
theorem waitForStoppedEvent_buffer_hit_witness :
    waitForStoppedEvent c3Session = (.resolved c3StoppedMsg, c3Session) ∧
    waitForStoppedEvent (waitForStoppedEvent c3Session).2 =
      (.resolved c3StoppedMsg, c3Session) :=
  waitForStoppedEvent_buffer_hit c3Session c3StoppedMsg rfl

/-! ## C1 — response correlation by sequence number -/

/-- Members of `allocSeqs s n` are at least `s`. -/
theorem allocSeqs_ge : ∀ (n : Nat) (s x : Int), x ∈ allocSeqs s n → s ≤ x := by
  intro n
  induction n with
  | zero => intro s x h; cases h
  | succ m ih =>
    intro s x h
    simp only [allocSeqs, allocSeq] at h
    rcases List.mem_cons.mp h with rfl | hmem
    · exact le_refl x
    · have := ih (s + 1) x hmem
      omega

/-- C1: a pending `sendDAPRequest` caller is only ever resolved with a
response message whose `request_seq` equals the sequence number that caller
allocated (both through the buffer pre-check and through the per-chunk
listener); after a timeout deregisters a caller, no chunk delivers anything
to it; and successive allocations on one session never reuse a sequence
number. -/
theorem sendDAPRequest_correlation :
    (∀ (messages : List JValue) (requestSeq : Int) (r : JValue),
      findMatchingResponse messages requestSeq = some r →
      isResponseMsg r = true ∧ hasRequestSeq r requestSeq = true) ∧
    (∀ (pending : List PendingCall) (chunk : List Char) (p : PendingCall)
      (r : JValue), (p, r) ∈ deliverChunk pending chunk →
      p ∈ pending ∧ isResponseMsg r = true ∧
        hasRequestSeq r p.requestSeq = true) ∧
    (∀ (pending : List PendingCall) (chunk : List Char) (cid : Nat)
      (p : PendingCall) (r : JValue),
      (p, r) ∈ deliverChunk (deregister pending cid) chunk →
      p.callerId ≠ cid) ∧
    (∀ (s : Int) (n : Nat), (allocSeqs s n).Nodup) := by
  have hfind : ∀ (messages : List JValue) (requestSeq : Int) (r : JValue),
      findMatchingResponse messages requestSeq = some r →
      isResponseMsg r = true ∧ hasRequestSeq r requestSeq = true := by
    intro messages requestSeq r h
    have := List.find?_some h
    simpa using this
  have hdeliver : ∀ (pending : List PendingCall) (chunk : List Char)
      (p : PendingCall) (r : JValue), (p, r) ∈ deliverChunk pending chunk →
      p ∈ pending ∧ isResponseMsg r = true ∧
        hasRequestSeq r p.requestSeq = true := by
    intro pending chunk p r h
    rw [deliverChunk, List.mem_filterMap] at h
    obtain ⟨q, hq, hf⟩ := h
    rw [Option.map_eq_some'] at hf
    obtain ⟨r0, hr0, heq⟩ := hf
    rw [Prod.mk.injEq] at heq
    obtain ⟨rfl, rfl⟩ := heq
    exact ⟨hq, hfind _ _ _ hr0⟩
  refine ⟨hfind, hdeliver, ?_, ?_⟩
  · intro pending chunk cid p r h
    have hp := (hdeliver _ _ _ _ h).1
    rw [deregister, List.mem_filter] at hp
    simpa using hp.2
  · intro s n
    induction n generalizing s with
    | zero => exact List.nodup_nil
    | succ m ih =>
      have hne : s ∉ allocSeqs (s + 1) m := by
        intro hmem
        have := allocSeqs_ge m (s + 1) s hmem
        omega
      simp only [allocSeqs, allocSeq, List.nodup_cons]
      exact ⟨hne, ih (s + 1)⟩

/-- C1 witness: a concrete chunk carrying the response with `request_seq` 3
resolves the caller that allocated 3, and the delivered response indeed
carries that sequence number. -/
theorem sendDAPRequest_correlation_witness :
    isResponseMsg c1Resp = true ∧ hasRequestSeq c1Resp (3 : Int) = true := by
  have e : deliverChunk [⟨0, 3⟩] c1Chunk = [(⟨0, 3⟩, c1Resp)] := rfl
  have h : ((⟨0, 3⟩ : PendingCall), c1Resp) ∈ deliverChunk [⟨0, 3⟩] c1Chunk := by
    rw [e]
    exact List.mem_singleton.mpr rfl
  exact (sendDAPRequest_correlation.2.1 [⟨0, 3⟩] c1Chunk ⟨0, 3⟩ c1Resp h).2

/-! ## Character and decimal-digit lemmas -/

/-- `Char.toNat` inverts `Char.ofNat` on valid code points. -/
theorem toNat_ofNat_valid (n : Nat) (h : n.isValidChar) :
    (Char.ofNat n).toNat = n := by
  unfold Char.ofNat
  rw [dif_pos h]
  rfl

/-- Code point of a digit character. -/
theorem digitChar_toNat (d : Nat) (h : d < 10) : (digitChar d).toNat = 48 + d :=
  toNat_ofNat_valid (48 + d) (Or.inl (by omega))

/-- Digit characters satisfy `Char.isDigit`. -/
theorem digitChar_isDigit (d : Nat) (h : d < 10) :
    (digitChar d).isDigit = true := by
  interval_cases d <;> decide

/-- Digit characters decode back to their value. -/
theorem digitChar_sub (d : Nat) (h : d < 10) :
    (digitChar d).toNat - 48 = d := by
  rw [digitChar_toNat d h]
  omega

/-- Hexadecimal digit characters decode back to their value. -/
theorem hexVal_hexChar (d : Nat) (h : d < 16) : hexVal (hexChar d) = some d := by
  interval_cases d <;> decide

/-- A digit character is none of the JSON structural first characters. -/
theorem isDigit_ne_delims (c : Char) (h : c.isDigit = true) :
    c ≠ 'n' ∧ c ≠ 't' ∧ c ≠ 'f' ∧ c ≠ '"' ∧ c ≠ '[' ∧ c ≠ lbrace ∧
    c ≠ ']' ∧ c ≠ rbrace ∧ c ≠ ',' ∧ c ≠ '-' ∧ c ≠ Char.ofNat 13 := by
  refine ⟨?_, ?_, ?_, ?_, ?_, ?_, ?_, ?_, ?_, ?_, ?_⟩ <;>
    (rintro rfl; exact absurd h (by decide))

/-! ## Decimal rendering round trip -/

/-- Folding the digit-accumulation step over the rendered digits of `n`
recovers `n` (with the seed contributing a positive multiple). -/
theorem natToCharsAux_foldl :
    ∀ (fuel n a : Nat), n ≤ fuel →
      ∃ p, 0 < p ∧
        (natToCharsAux fuel n).foldl (fun a c => a * 10 + (c.toNat - 48)) a =
          a * p + n := by
  intro fuel
  induction fuel with
  | zero =>
    intro n a h
    have : n = 0 := by omega
    subst this
    exact ⟨1, by omega, by simp [natToCharsAux]⟩
  | succ f ih =>
    intro n a h
    by_cases hn : n = 0
    · subst hn
      exact ⟨1, by omega, by simp [natToCharsAux]⟩
    · have hlt : n / 10 ≤ f := by omega
      obtain ⟨p, hp, he⟩ := ih (n / 10) a hlt
      refine ⟨p * 10, by omega, ?_⟩
      rw [natToCharsAux, if_neg hn, List.foldl_append, he]
      simp only [List.foldl_cons, List.foldl_nil]
      rw [digitChar_sub (n % 10) (by omega)]
      have h10 : a * (p * 10) = a * p * 10 := by ring
      rw [h10]
      generalize a * p = k
      omega

/-- `parseInt` on the decimal rendering of `n` gives back `n`. -/
theorem charsVal_natToChars (n : Nat) : charsVal (natToChars n) = n := by
  by_cases hn : n = 0
  · subst hn; decide
  · obtain ⟨p, hp, he⟩ := natToCharsAux_foldl n n 0 le_rfl
    unfold natToChars charsVal
    rw [if_neg hn, he]
    omega

/-- Every character of the digits of `n` is a digit. -/
theorem natToCharsAux_digits :
    ∀ (fuel n : Nat), ∀ c ∈ natToCharsAux fuel n, c.isDigit = true := by
  intro fuel
  induction fuel with
  | zero => intro n c hc; simp [natToCharsAux] at hc
  | succ f ih =>
    intro n c hc
    by_cases hn : n = 0
    · subst hn; simp [natToCharsAux] at hc
    · rw [natToCharsAux, if_neg hn] at hc
      rcases List.mem_append.mp hc with h | h
      · exact ih (n / 10) c h
      · rw [List.mem_singleton.mp h]
        exact digitChar_isDigit (n % 10) (by omega)

/-- Every character of `natToChars n` is a digit. -/
theorem natToChars_digits (n : Nat) : ∀ c ∈ natToChars n, c.isDigit = true := by
  intro c hc
  unfold natToChars at hc
  by_cases hn : n = 0
  · rw [if_pos hn] at hc
    rw [List.mem_singleton.mp hc]
    decide
  · rw [if_neg hn] at hc
    exact natToCharsAux_digits n n c hc

/-- The decimal rendering is never empty. -/
theorem natToChars_ne_nil (n : Nat) : natToChars n ≠ [] := by
  unfold natToChars
  by_cases hn : n = 0
  · simp [hn]
  · rw [if_neg hn]
    cases n with
    | zero => exact absurd rfl hn
    | succ m =>
      rw [natToCharsAux, if_neg hn]
      simp

/-- The decimal rendering starts with a digit character. -/
theorem natToChars_cons (n : Nat) :
    ∃ c cs, natToChars n = c :: cs ∧ c.isDigit = true := by
  cases hl : natToChars n with
  | nil => exact absurd hl (natToChars_ne_nil n)
  | cons c cs =>
    exact ⟨c, cs, rfl, natToChars_digits n c (hl ▸ List.mem_cons_self c cs)⟩

/-! ## takeWhile and integer-literal round trips -/

/-- `takeWhile` over an append whose left part all satisfies `p` and whose
right part starts with a failure takes exactly the left part. -/
theorem takeWhile_append_all (p : Char → Bool) :
    ∀ (l l2 : List Char), (∀ c ∈ l, p c = true) →
      (∀ c, l2.head? = some c → p c = false) →
      (l ++ l2).takeWhile p = l := by
  intro l
  induction l with
  | nil =>
    intro l2 _ hl2
    cases l2 with
    | nil => rfl
    | cons c t =>
      simp only [List.nil_append, List.takeWhile_cons, hl2 c rfl]
      simp
  | cons c t ih =>
    intro l2 hl hl2
    simp only [List.cons_append, List.takeWhile_cons,
      hl c (List.mem_cons_self c t)]
    rw [ih l2 (fun x hx => hl x (List.mem_cons_of_mem c hx)) hl2]
    simp

/-- The digits parser inverts the decimal rendering. -/
theorem parseNatChars_natToChars (n : Nat) (rest : List Char)
    (hrest : ∀ c, rest.head? = some c → c.isDigit = false) :
    parseNatChars (natToChars n ++ rest) = some (n, rest) := by
  have htw : (natToChars n ++ rest).takeWhile Char.isDigit = natToChars n :=
    takeWhile_append_all Char.isDigit (natToChars n) rest
      (natToChars_digits n) hrest
  have hne : (natToChars n).isEmpty = false := by
    cases hl : natToChars n with
    | nil => exact absurd hl (natToChars_ne_nil n)
    | cons c cs => rfl
  unfold parseNatChars
  rw [htw, hne]
  simp only [Bool.false_eq_true, if_false]
  rw [charsVal_natToChars, List.drop_left]

/-- The integer parser inverts the integer rendering. -/
theorem parseIntChars_intToChars (i : Int) (rest : List Char)
    (hrest : ∀ c, rest.head? = some c → c.isDigit = false) :
    parseIntChars (intToChars i ++ rest) = some (i, rest) := by
  unfold parseIntChars intToChars
  by_cases hi : i < 0
  · rw [if_pos hi]
    simp only [List.cons_append, List.head?_cons]
    simp only [Option.some.injEq, if_true]
    simp only [List.drop_succ_cons, List.drop_zero]
    rw [parseNatChars_natToChars i.natAbs rest hrest]
    simp only [Option.map_some']
    congr 1
    congr 1
    omega
  · rw [if_neg hi]
    obtain ⟨c, cs, hcons, hdig⟩ := natToChars_cons i.natAbs
    have hne : ((natToChars i.natAbs ++ rest).head? = some '-') = False := by
      rw [hcons]
      simp only [List.cons_append, List.head?_cons, Option.some.injEq,
        eq_iff_iff, iff_false]
      intro hc
      rw [hc] at hdig
      exact absurd hdig (by decide)
    rw [if_neg (by rw [hne]; exact id)]
    rw [parseNatChars_natToChars i.natAbs rest hrest]
    simp only [Option.map_some']
    congr 1
    congr 1
    omega

/-! ## String escaping round trip -/

/-- The string-body parser inverts `JSON.stringify` escaping: parsing the
escaped body followed by the closing quote recovers the original string and
leaves the rest untouched. -/
theorem parseStringBody_escape :
    ∀ (s rest : List Char),
      parseStringBody (escapeChars s ++ '"' :: rest) = some (s, rest) := by
  intro s
  induction s with
  | nil =>
    intro rest
    show parseStringBody ('"' :: rest) = some ([], rest)
    rw [parseStringBody.eq_def]
    simp +decide
  | cons c t ih =>
    intro rest
    show parseStringBody ((escapeChar c ++ escapeChars t) ++ '"' :: rest) =
      some (c :: t, rest)
    rw [List.append_assoc]
    by_cases h1 : c = '"'
    · subst h1
      rw [show escapeChar '"' = ['\\', '"'] from rfl, List.cons_append,
        List.cons_append, List.nil_append, parseStringBody.eq_def]
      simp +decide [psCons, ih]
    by_cases h2 : c = '\\'
    · subst h2
      rw [show escapeChar '\\' = ['\\', '\\'] from rfl, List.cons_append,
        List.cons_append, List.nil_append, parseStringBody.eq_def]
      simp +decide [psCons, ih]
    by_cases h3 : c = Char.ofNat 8
    · subst h3
      rw [show escapeChar (Char.ofNat 8) = ['\\', 'b'] from rfl,
        List.cons_append, List.cons_append, List.nil_append,
        parseStringBody.eq_def]
      simp +decide [psCons, ih]
    by_cases h4 : c = Char.ofNat 9
    · subst h4
      rw [show escapeChar (Char.ofNat 9) = ['\\', 't'] from rfl,
        List.cons_append, List.cons_append, List.nil_append,
        parseStringBody.eq_def]
      simp +decide [psCons, ih]
    by_cases h5 : c = Char.ofNat 10
    · subst h5
      rw [show escapeChar (Char.ofNat 10) = ['\\', 'n'] from rfl,
        List.cons_append, List.cons_append, List.nil_append,
        parseStringBody.eq_def]
      simp +decide [psCons, ih]
    by_cases h6 : c = Char.ofNat 12
    · subst h6
      rw [show escapeChar (Char.ofNat 12) = ['\\', 'f'] from rfl,
        List.cons_append, List.cons_append, List.nil_append,
        parseStringBody.eq_def]
      simp +decide [psCons, ih]
    by_cases h7 : c = Char.ofNat 13
    · subst h7
      rw [show escapeChar (Char.ofNat 13) = ['\\', 'r'] from rfl,
        List.cons_append, List.cons_append, List.nil_append,
        parseStringBody.eq_def]
      simp +decide [psCons, ih]
    by_cases h8 : c.toNat < 32
    · rw [escapeChar, if_neg h1, if_neg h2, if_neg h3, if_neg h4, if_neg h5,
        if_neg h6, if_neg h7, if_pos h8]
      have hhi : hexVal (hexChar (c.toNat / 16)) = some (c.toNat / 16) :=
        hexVal_hexChar (c.toNat / 16) (by omega)
      have hlo : hexVal (hexChar (c.toNat % 16)) = some (c.toNat % 16) :=
        hexVal_hexChar (c.toNat % 16) (by omega)
      simp only [List.cons_append, List.nil_append]
      rw [parseStringBody.eq_def]
      simp +decide [hhi, hlo, psCons, ih,
        show hexVal '0' = some 0 from by decide]
      have harith : c.toNat / 16 * 16 + c.toNat % 16 = c.toNat := by omega
      rw [harith, Char.ofNat_toNat]
    · rw [escapeChar, if_neg h1, if_neg h2, if_neg h3, if_neg h4, if_neg h5,
        if_neg h6, if_neg h7, if_neg h8]
      simp only [List.cons_append, List.nil_append]
      rw [parseStringBody.eq_def]
      simp +decide [h1, h2, h8, psCons, ih]

/-! ## Shape and size lemmas for serialized JSON -/

/-- Parser fuel requirements are positive on values. -/
theorem jsizeV_pos (v : JValue) : 1 ≤ jsizeV v := by
  cases v <;> simp [jsizeV]

/-- `numSafe` holds vacuously for an empty continuation. -/
theorem numSafe_nil (v : JValue) : numSafe v [] := by
  cases v <;> try trivial
  intro c hc
  simp at hc

/-- `numSafe` holds when the continuation starts with a non-digit. -/
theorem numSafe_cons (v : JValue) (c : Char) (rest : List Char)
    (h : c.isDigit = false) : numSafe v (c :: rest) := by
  cases v <;> try trivial
  intro c2 hc2
  simp only [List.head?_cons, Option.some.injEq] at hc2
  rw [← hc2]
  exact h

/-- The integer rendering is never empty. -/
theorem intToChars_ne_nil (i : Int) : intToChars i ≠ [] := by
  unfold intToChars
  split
  · simp
  · exact natToChars_ne_nil _

/-- Every serialized value starts with one of the JSON first characters. -/
theorem stringify_head (v : JValue) :
    ∃ c cs, stringify v = c :: cs ∧
      (c = 'n' ∨ c = 't' ∨ c = 'f' ∨ c = '"' ∨ c = '[' ∨ c = lbrace ∨
       c.isDigit = true ∨ c = '-') := by
  cases v with
  | jnull => exact ⟨'n', sChars "ull", rfl, Or.inl rfl⟩
  | jbool b =>
    cases b
    · exact ⟨'f', sChars "alse", rfl, Or.inr (Or.inr (Or.inl rfl))⟩
    · exact ⟨'t', sChars "rue", rfl, Or.inr (Or.inl rfl)⟩
  | jnum i =>
    show ∃ c cs, intToChars i = c :: cs ∧ _
    unfold intToChars
    split
    · exact ⟨'-', natToChars i.natAbs, rfl,
        Or.inr (Or.inr (Or.inr (Or.inr (Or.inr (Or.inr (Or.inr rfl))))))⟩
    · obtain ⟨c, cs, hc, hd⟩ := natToChars_cons i.natAbs
      exact ⟨c, cs, hc,
        Or.inr (Or.inr (Or.inr (Or.inr (Or.inr (Or.inr (Or.inl hd))))))⟩
  | jstr str => exact ⟨'"', _, rfl, Or.inr (Or.inr (Or.inr (Or.inl rfl)))⟩
  | jarr xs => exact ⟨'[', _, rfl, Or.inr (Or.inr (Or.inr (Or.inr (Or.inl rfl))))⟩
  | jobj ms =>
    exact ⟨lbrace, _, rfl, Or.inr (Or.inr (Or.inr (Or.inr (Or.inr (Or.inl rfl)))))⟩

/-- Serialized values never start with a closing bracket, closing brace or
comma. -/
theorem stringify_head_ne (v : JValue) (c : Char) (cs : List Char)
    (h : stringify v = c :: cs) : c ≠ ']' ∧ c ≠ rbrace := by
  obtain ⟨c2, cs2, hc2, hd⟩ := stringify_head v
  rw [h] at hc2
  obtain ⟨rfl, -⟩ : c2 = c ∧ cs2 = cs := by
    constructor <;> [exact (List.cons.injEq .. ▸ hc2).1.symm;
                     exact (List.cons.injEq .. ▸ hc2).2.symm]
  rcases hd with rfl | rfl | rfl | rfl | rfl | rfl | hdig | rfl
  all_goals first
    | exact ⟨by decide, by decide⟩
    | exact ⟨(isDigit_ne_delims c2 hdig).2.2.2.2.2.2.1,
             (isDigit_ne_delims c2 hdig).2.2.2.2.2.2.2.1⟩

/-- A non-empty element list serializes to its head's serialization followed
by a tail. -/
theorem stringifyElems_cons (x : JValue) (xs : List JValue) :
    ∃ tail, stringifyElems (x :: xs) = stringify x ++ tail := by
  cases xs with
  | nil => exact ⟨[], (List.append_nil _).symm⟩
  | cons y r => exact ⟨',' :: stringifyElems (y :: r), rfl⟩

/-- A non-empty member list serializes to a string starting with a quote. -/
theorem stringifyMembers_cons (m : List Char × JValue)
    (ms : List (List Char × JValue)) :
    ∃ tail, stringifyMembers (m :: ms) = '"' :: tail := by
  obtain ⟨k, v⟩ := m
  cases ms with
  | nil => exact ⟨_, rfl⟩
  | cons y r => exact ⟨_, rfl⟩

/-- The fuel requirement never exceeds the serialized length (plus one for
the list forms). -/
theorem jsize_le_stringify : ∀ N : Nat,
    (∀ v, jsizeV v ≤ N → jsizeV v ≤ (stringify v).length) ∧
    (∀ xs, jsizeElems xs ≤ N → jsizeElems xs ≤ (stringifyElems xs).length + 1) ∧
    (∀ ms, jsizeMembers ms ≤ N →
      jsizeMembers ms ≤ (stringifyMembers ms).length + 1) := by
  intro N
  induction N using Nat.strong_induction_on with
  | _ N IH =>
    refine ⟨?_, ?_, ?_⟩
    · intro v hv
      cases v with
      | jnull => simp [jsizeV, stringify, sChars]
      | jbool b => cases b <;> simp [jsizeV, stringify, sChars]
      | jnum i =>
        have := intToChars_ne_nil i
        have hlen : 1 ≤ (intToChars i).length := by
          cases hl : intToChars i with
          | nil => exact absurd hl this
          | cons c cs => simp
        simpa [jsizeV, stringify] using hlen
      | jstr str => simp [jsizeV, stringify]
      | jarr xs =>
        have hN : 1 ≤ N := by
          have := jsizeV_pos (.jarr xs)
          omega
        have hx : jsizeElems xs ≤ N - 1 := by
          simp [jsizeV] at hv
          omega
        have := (IH (N - 1) (by omega)).2.1 xs hx
        simp only [jsizeV, stringify, List.length_cons, List.length_append,
          List.length_singleton]
        omega
      | jobj ms =>
        have hN : 1 ≤ N := by
          have := jsizeV_pos (.jobj ms)
          omega
        have hx : jsizeMembers ms ≤ N - 1 := by
          simp [jsizeV] at hv
          omega
        have := (IH (N - 1) (by omega)).2.2 ms hx
        simp only [jsizeV, stringify, List.length_cons, List.length_append,
          List.length_singleton]
        omega
    · intro xs hxs
      cases xs with
      | nil => simp [jsizeElems]
      | cons x t =>
        have hN : 1 ≤ N := by
          have := jsizeV_pos x
          simp [jsizeElems] at hxs
          omega
        have hxv : jsizeV x ≤ N - 1 := by
          simp [jsizeElems] at hxs
          omega
        have hxt : jsizeElems t ≤ N - 1 := by
          simp [jsizeElems] at hxs
          omega
        have h1 := (IH (N - 1) (by omega)).1 x hxv
        have h2 := (IH (N - 1) (by omega)).2.1 t hxt
        cases t with
        | nil =>
          simp only [jsizeElems, stringifyElems]
          omega
        | cons y r =>
          simp only [jsizeElems, stringifyElems, List.length_append,
            List.length_cons] at h2 ⊢
          omega
    · intro ms hms
      cases ms with
      | nil => simp [jsizeMembers]
      | cons m t =>
        obtain ⟨k, v⟩ := m
        have hN : 1 ≤ N := by
          have := jsizeV_pos v
          simp [jsizeMembers] at hms
          omega
        have hxv : jsizeV v ≤ N - 1 := by
          simp [jsizeMembers] at hms
          omega
        have hxt : jsizeMembers t ≤ N - 1 := by
          simp [jsizeMembers] at hms
          omega
        have h1 := (IH (N - 1) (by omega)).1 v hxv
        have h2 := (IH (N - 1) (by omega)).2.2 t hxt
        cases t with
        | nil =>
          simp only [jsizeMembers, stringifyMembers, List.length_cons,
            List.length_append]
          omega
        | cons y r =>
          simp only [jsizeMembers, stringifyMembers, List.length_append,
            List.length_cons] at h2 ⊢
          omega

/-! ## One-step characterizations of the fuel parser -/

/-- `parseValue` on a quote-led input parses a string. -/
theorem parseValue_quote (fuel : Nat) (X : List Char) :
    parseValue (fuel + 1) ('"' :: X) =
      match parseStringBody X with
      | some (str, rest2) => some (.jstr str, rest2)
      | none => none := rfl

/-- `parseValue` on a bracket-led input parses an array. -/
theorem parseValue_lbracket (fuel : Nat) (X : List Char) :
    parseValue (fuel + 1) ('[' :: X) =
      (if X.head? = some ']' then some (.jarr [], X.drop 1)
       else
         match parseElems fuel X with
         | some (vs, rest2) => some (.jarr vs, rest2)
         | none => none) := rfl

/-- `parseValue` on a brace-led input parses an object. -/
theorem parseValue_lbrace (fuel : Nat) (X : List Char) :
    parseValue (fuel + 1) (lbrace :: X) =
      (if X.head? = some rbrace then some (.jobj [], X.drop 1)
       else
         match parseMembers fuel X with
         | some (ms, rest2) => some (.jobj ms, rest2)
         | none => none) := rfl

/-- `parseValue` on any other first character falls through to the number
parser. -/
theorem parseValue_other (fuel : Nat) (c : Char) (X : List Char)
    (h1 : c ≠ 'n') (h2 : c ≠ 't') (h3 : c ≠ 'f') (h4 : c ≠ '"')
    (h5 : c ≠ '[') (h6 : c ≠ lbrace) :
    parseValue (fuel + 1) (c :: X) =
      match parseIntChars (c :: X) with
      | some (i, rest2) => some (.jnum i, rest2)
      | none => none := by
  rw [parseValue.eq_def]
  simp [h1, h2, h3, h4, h5, h6]

/-- One-step unfolding of `parseElems`. -/
theorem parseElems_succ (fuel : Nat) (s : List Char) :
    parseElems (fuel + 1) s =
      match parseValue fuel s with
      | none => none
      | some (v, rest) =>
        if rest.head? = some ',' then
          match parseElems fuel (rest.drop 1) with
          | some (vs, rest3) => some (v :: vs, rest3)
          | none => none
        else if rest.head? = some ']' then some ([v], rest.drop 1)
        else none := rfl

/-- One-step unfolding of `parseMembers` on a quote-led input. -/
theorem parseMembers_quote (fuel : Nat) (X : List Char) :
    parseMembers (fuel + 1) ('"' :: X) =
      match parseStringBody X with
      | none => none
      | some (k, rest2) =>
        if rest2.head? = some ':' then
          match parseValue fuel (rest2.drop 1) with
          | none => none
          | some (v, rest4) =>
            if rest4.head? = some ',' then
              match parseMembers fuel (rest4.drop 1) with
              | some (ms, rest6) => some ((k, v) :: ms, rest6)
              | none => none
            else if rest4.head? = some rbrace then some ([(k, v)], rest4.drop 1)
            else none
        else none := rfl

/-- The integer rendering starts with a digit or a minus sign. -/
theorem intToChars_head (i : Int) :
    ∃ c cs, intToChars i = c :: cs ∧ (c.isDigit = true ∨ c = '-') := by
  unfold intToChars
  split
  · exact ⟨'-', natToChars i.natAbs, rfl, Or.inr rfl⟩
  · obtain ⟨c, cs, hc, hd⟩ := natToChars_cons i.natAbs
    exact ⟨c, cs, hc, Or.inl hd⟩

/-- Step lemma: `parseElems` after a successful element parse. -/
theorem parseElems_value_some (fuel : Nat) (s : List Char) (v : JValue)
    (rest : List Char) (hv : parseValue fuel s = some (v, rest)) :
    parseElems (fuel + 1) s =
      (if rest.head? = some ',' then
        match parseElems fuel (rest.drop 1) with
        | some (vs, rest3) => some (v :: vs, rest3)
        | none => none
      else if rest.head? = some ']' then some ([v], rest.drop 1)
      else none) := by
  rw [parseElems_succ, hv]

/-- Step lemma: `parseMembers` after a successful key parse. -/
theorem parseMembers_key_some (fuel : Nat) (s : List Char) (k : List Char)
    (W : List Char) (hk : parseStringBody s = some (k, ':' :: W)) :
    parseMembers (fuel + 1) ('"' :: s) =
      match parseValue fuel W with
      | none => none
      | some (v, rest4) =>
        if rest4.head? = some ',' then
          match parseMembers fuel (rest4.drop 1) with
          | some (ms, rest6) => some ((k, v) :: ms, rest6)
          | none => none
        else if rest4.head? = some rbrace then some ([(k, v)], rest4.drop 1)
        else none := by
  rw [parseMembers_quote, hk]
  rfl

/-! ## The parser inverts the serializer -/

/-- Main round-trip lemma, by induction on the parser fuel: with enough fuel,
parsing the serialization of a value (or of a non-empty element/member list
with its closing bracket) consumes exactly it. -/
theorem parse_stringify_fuel : ∀ fuel : Nat,
    (∀ (v : JValue) (rest : List Char), jsizeV v ≤ fuel → numSafe v rest →
      parseValue fuel (stringify v ++ rest) = some (v, rest)) ∧
    (∀ (xs : List JValue) (rest : List Char), xs ≠ [] → jsizeElems xs ≤ fuel →
      parseElems fuel (stringifyElems xs ++ ']' :: rest) = some (xs, rest)) ∧
    (∀ (ms : List (List Char × JValue)) (rest : List Char), ms ≠ [] →
      jsizeMembers ms ≤ fuel →
      parseMembers fuel (stringifyMembers ms ++ rbrace :: rest) =
        some (ms, rest)) := by
  intro fuel
  induction fuel with
  | zero =>
    refine ⟨?_, ?_, ?_⟩
    · intro v rest hsz _
      exact absurd hsz (by have := jsizeV_pos v; omega)
    · intro xs rest hne hsz
      cases xs with
      | nil => exact absurd rfl hne
      | cons x t => exact absurd hsz (by simp only [jsizeElems]; omega)
    · intro ms rest hne hsz
      cases ms with
      | nil => exact absurd rfl hne
      | cons m t => exact absurd hsz (by simp only [jsizeMembers]; omega)
  | succ fuel ih =>
    obtain ⟨ihV, ihE, ihM⟩ := ih
    refine ⟨?_, ?_, ?_⟩
    · intro v rest hsz hsafe
      cases v with
      | jnull => rfl
      | jbool b => cases b <;> rfl
      | jnum i =>
        have hdig : ∀ c, rest.head? = some c → c.isDigit = false := hsafe
        obtain ⟨c, cs, hc, hcd⟩ := intToChars_head i
        have hne : c ≠ 'n' ∧ c ≠ 't' ∧ c ≠ 'f' ∧ c ≠ '"' ∧ c ≠ '[' ∧
            c ≠ lbrace := by
          rcases hcd with hd | rfl
          · have h := isDigit_ne_delims c hd
            exact ⟨h.1, h.2.1, h.2.2.1, h.2.2.2.1, h.2.2.2.2.1, h.2.2.2.2.2.1⟩
          · exact ⟨by decide, by decide, by decide, by decide, by decide,
              by decide⟩
        show parseValue (fuel + 1) (intToChars i ++ rest) = some (.jnum i, rest)
        rw [hc, List.cons_append,
          parseValue_other fuel c (cs ++ rest) hne.1 hne.2.1 hne.2.2.1
            hne.2.2.2.1 hne.2.2.2.2.1 hne.2.2.2.2.2,
          ← List.cons_append, ← hc,
          parseIntChars_intToChars i rest hdig]
      | jstr str =>
        show parseValue (fuel + 1)
          (('"' :: (escapeChars str ++ ['"'])) ++ rest) = some (.jstr str, rest)
        rw [List.cons_append, List.append_assoc, List.singleton_append,
          parseValue_quote, parseStringBody_escape str rest]
      | jarr xs =>
        cases xs with
        | nil => rfl
        | cons x t =>
          have hszE : jsizeElems (x :: t) ≤ fuel := by
            simp only [jsizeV] at hsz
            omega
          show parseValue (fuel + 1)
            (('[' :: (stringifyElems (x :: t) ++ [']'])) ++ rest) =
              some (.jarr (x :: t), rest)
          rw [List.cons_append, List.append_assoc, List.singleton_append,
            parseValue_lbracket]
          obtain ⟨tail, htail⟩ := stringifyElems_cons x t
          obtain ⟨c, cs, hcx, -⟩ := stringify_head x
          have hhead : (stringifyElems (x :: t) ++ ']' :: rest).head? =
              some c := by
            rw [htail, hcx]
            simp
          have hcne := (stringify_head_ne x c cs hcx).1
          rw [if_neg (by rw [hhead]; simp [hcne]),
            ihE (x :: t) rest (by simp) hszE]
      | jobj ms =>
        cases ms with
        | nil => rfl
        | cons m t =>
          have hszM : jsizeMembers (m :: t) ≤ fuel := by
            simp only [jsizeV] at hsz
            omega
          show parseValue (fuel + 1)
            ((lbrace :: (stringifyMembers (m :: t) ++ [rbrace])) ++ rest) =
              some (.jobj (m :: t), rest)
          rw [List.cons_append, List.append_assoc, List.singleton_append,
            parseValue_lbrace]
          obtain ⟨tail, htail⟩ := stringifyMembers_cons m t
          have hhead : (stringifyMembers (m :: t) ++ rbrace :: rest).head? =
              some '"' := by
            rw [htail]
            simp
          rw [if_neg (by rw [hhead]; decide), ihM (m :: t) rest (by simp) hszM]
    · intro xs rest hne hsz
      cases xs with
      | nil => exact absurd rfl hne
      | cons x t =>
        cases t with
        | nil =>
          have hszx : jsizeV x ≤ fuel := by
            simp only [jsizeElems] at hsz
            omega
          rw [show stringifyElems [x] = stringify x from rfl]
          rw [parseElems_value_some fuel (stringify x ++ ']' :: rest) x
            (']' :: rest)
            (ihV x (']' :: rest) hszx (numSafe_cons x ']' rest (by decide)))]
          rfl
        | cons y r =>
          have hszx : jsizeV x ≤ fuel := by
            simp only [jsizeElems] at hsz
            omega
          have hszt : jsizeElems (y :: r) ≤ fuel := by
            simp only [jsizeElems] at hsz ⊢
            omega
          rw [show stringifyElems (x :: y :: r) =
            stringify x ++ ',' :: stringifyElems (y :: r) from rfl]
          rw [List.append_assoc, List.cons_append]
          rw [parseElems_value_some fuel
            (stringify x ++ ',' :: (stringifyElems (y :: r) ++ ']' :: rest)) x
            (',' :: (stringifyElems (y :: r) ++ ']' :: rest))
            (ihV x _ hszx (numSafe_cons x ',' _ (by decide)))]
          have hstep : (if (',' :: (stringifyElems (y :: r) ++ ']' :: rest)).head? =
                some ',' then
              match parseElems fuel
                ((',' :: (stringifyElems (y :: r) ++ ']' :: rest)).drop 1) with
              | some (vs, rest3) => some (x :: vs, rest3)
              | none => none
            else if (',' :: (stringifyElems (y :: r) ++ ']' :: rest)).head? =
                some ']' then
              some ([x], (',' :: (stringifyElems (y :: r) ++ ']' :: rest)).drop 1)
            else none) =
              match parseElems fuel (stringifyElems (y :: r) ++ ']' :: rest) with
              | some (vs, rest3) => some (x :: vs, rest3)
              | none => none := rfl
          rw [hstep, ihE (y :: r) rest (by simp) hszt]
    · intro ms rest hne hsz
      cases ms with
      | nil => exact absurd rfl hne
      | cons m t =>
        obtain ⟨k, v⟩ := m
        cases t with
        | nil =>
          have hszv : jsizeV v ≤ fuel := by
            simp only [jsizeMembers] at hsz
            omega
          rw [show stringifyMembers [(k, v)] ++ rbrace :: rest =
            '"' :: (escapeChars k ++ '"' :: ':' ::
              (stringify v ++ rbrace :: rest)) from by
            simp [stringifyMembers, List.cons_append, List.append_assoc]]
          rw [parseMembers_key_some fuel _ k (stringify v ++ rbrace :: rest)
            (parseStringBody_escape k (':' :: (stringify v ++ rbrace :: rest)))]
          rw [ihV v (rbrace :: rest) hszv
            (numSafe_cons v rbrace rest (by decide))]
          rfl
        | cons m2 r =>
          have hszv : jsizeV v ≤ fuel := by
            simp only [jsizeMembers] at hsz
            omega
          have hszt : jsizeMembers (m2 :: r) ≤ fuel := by
            simp only [jsizeMembers] at hsz ⊢
            omega
          rw [show stringifyMembers ((k, v) :: m2 :: r) ++ rbrace :: rest =
            '"' :: (escapeChars k ++ '"' :: ':' ::
              (stringify v ++ ',' ::
                (stringifyMembers (m2 :: r) ++ rbrace :: rest))) from by
            simp [stringifyMembers, List.cons_append, List.append_assoc]]
          rw [parseMembers_key_some fuel _ k
            (stringify v ++ ',' :: (stringifyMembers (m2 :: r) ++ rbrace :: rest))
            (parseStringBody_escape k _)]
          rw [ihV v (',' :: (stringifyMembers (m2 :: r) ++ rbrace :: rest)) hszv
            (numSafe_cons v ',' _ (by decide))]
          have hstep : (match some (v, ',' ::
                (stringifyMembers (m2 :: r) ++ rbrace :: rest)) with
              | none => none
              | some (v2, rest4) =>
                if rest4.head? = some ',' then
                  match parseMembers fuel (rest4.drop 1) with
                  | some (ms2, rest6) => some ((k, v2) :: ms2, rest6)
                  | none => none
                else if rest4.head? = some rbrace then
                  some ([(k, v2)], rest4.drop 1)
                else none) =
              match parseMembers fuel
                  (stringifyMembers (m2 :: r) ++ rbrace :: rest) with
              | some (ms2, rest6) => some ((k, v) :: ms2, rest6)
              | none => none := rfl
          rw [hstep, ihM (m2 :: r) rest (by simp) hszt]

/-! ## Framing lemmas and the framing round trip -/

/-- Whole-input parse of a serialized value. -/
theorem jsonParse_stringify (m : JValue) : jsonParse (stringify m) = some m := by
  have hsz : jsizeV m ≤ (stringify m).length :=
    (jsize_le_stringify (jsizeV m)).1 m le_rfl
  have h := (parse_stringify_fuel ((stringify m).length + 1)).1 m []
    (by omega) (numSafe_nil m)
  rw [List.append_nil] at h
  unfold jsonParse
  rw [h]

/-- A list is a prefix of itself followed by anything. -/
theorem isPrefixOf_append_self : ∀ (a b : List Char),
    a.isPrefixOf (a ++ b) = true := by
  intro a b
  induction a with
  | nil => simp [List.isPrefixOf]
  | cons c t ih => simp [List.isPrefixOf, ih]

/-- UTF-8 sizes are at least one byte. -/
theorem utf8Len_pos (c : Char) : 1 ≤ utf8Len c := by
  unfold utf8Len
  split_ifs <;> omega

/-- The character count never exceeds the UTF-8 byte count. -/
theorem length_le_byteLength (s : List Char) : s.length ≤ byteLength s := by
  induction s with
  | nil => simp [byteLength]
  | cons c t ih =>
    have := utf8Len_pos c
    simp only [byteLength, List.map_cons, List.sum_cons, List.length_cons]
    simp only [byteLength] at ih
    omega

/-- Hexadecimal digit characters are not carriage returns. -/
theorem hexChar_ne_cr (d : Nat) (h : d < 16) : hexChar d ≠ Char.ofNat 13 := by
  interval_cases d <;> decide

/-- Escaped string bodies contain no carriage return. -/
theorem escapeChars_noCR : ∀ (s : List Char),
    Char.ofNat 13 ∉ escapeChars s := by
  intro s
  induction s with
  | nil => simp [escapeChars]
  | cons c t ih =>
    simp only [escapeChars, List.mem_append]
    rintro (h | h)
    · unfold escapeChar at h
      split_ifs at h with h1 h2 h3 h4 h5 h6 h7 h8
      · exact absurd h (by decide)
      · exact absurd h (by decide)
      · exact absurd h (by decide)
      · exact absurd h (by decide)
      · exact absurd h (by decide)
      · exact absurd h (by decide)
      · exact absurd h (by decide)
      · simp only [List.mem_cons, List.not_mem_nil, or_false] at h
        rcases h with h | h | h | h | h | h
        · exact absurd h (by decide)
        · exact absurd h (by decide)
        · exact absurd h (by decide)
        · exact absurd h (by decide)
        · exact (hexChar_ne_cr (c.toNat / 16) (by omega)) h.symm
        · exact (hexChar_ne_cr (c.toNat % 16) (by omega)) h.symm
      · simp only [List.mem_singleton] at h
        rw [← h] at h8
        exact h8 (by decide)
    · exact ih h

/-- The decimal rendering contains no carriage return. -/
theorem natToChars_noCR (n : Nat) : Char.ofNat 13 ∉ natToChars n := by
  intro h
  exact absurd (natToChars_digits n _ h) (by decide)

/-- Serialized JSON contains no raw carriage return. -/
theorem stringify_noCR : ∀ N : Nat,
    (∀ v, jsizeV v ≤ N → Char.ofNat 13 ∉ stringify v) ∧
    (∀ xs, jsizeElems xs ≤ N → Char.ofNat 13 ∉ stringifyElems xs) ∧
    (∀ ms, jsizeMembers ms ≤ N → Char.ofNat 13 ∉ stringifyMembers ms) := by
  intro N
  induction N using Nat.strong_induction_on with
  | _ N IH =>
    refine ⟨?_, ?_, ?_⟩
    · intro v hv
      cases v with
      | jnull => decide
      | jbool b => cases b <;> decide
      | jnum i =>
        show Char.ofNat 13 ∉ intToChars i
        unfold intToChars
        split
        · intro h
          rcases List.mem_cons.mp h with h | h
          · exact absurd h (by decide)
          · exact natToChars_noCR _ h
        · exact natToChars_noCR _
      | jstr str =>
        show Char.ofNat 13 ∉ '"' :: (escapeChars str ++ ['"'])
        intro h
        rcases List.mem_cons.mp h with h | h
        · exact absurd h (by decide)
        rcases List.mem_append.mp h with h | h
        · exact escapeChars_noCR str h
        · exact absurd h (by decide)
      | jarr xs =>
        have hN : 1 ≤ N := by have := jsizeV_pos (.jarr xs); omega
        have hx : jsizeElems xs ≤ N - 1 := by
          simp only [jsizeV] at hv; omega
        have hE := (IH (N - 1) (by omega)).2.1 xs hx
        show Char.ofNat 13 ∉ '[' :: (stringifyElems xs ++ [']'])
        intro h
        rcases List.mem_cons.mp h with h | h
        · exact absurd h (by decide)
        rcases List.mem_append.mp h with h | h
        · exact hE h
        · exact absurd h (by decide)
      | jobj ms =>
        have hN : 1 ≤ N := by have := jsizeV_pos (.jobj ms); omega
        have hx : jsizeMembers ms ≤ N - 1 := by
          simp only [jsizeV] at hv; omega
        have hM := (IH (N - 1) (by omega)).2.2 ms hx
        show Char.ofNat 13 ∉ lbrace :: (stringifyMembers ms ++ [rbrace])
        intro h
        rcases List.mem_cons.mp h with h | h
        · exact absurd h (by decide)
        rcases List.mem_append.mp h with h | h
        · exact hM h
        · exact absurd h (by decide)
    · intro xs hxs
      cases xs with
      | nil => simp [stringifyElems]
      | cons x t =>
        have hN : 1 ≤ N := by
          have := jsizeV_pos x
          simp only [jsizeElems] at hxs
          omega
        have hxv : jsizeV x ≤ N - 1 := by
          simp only [jsizeElems] at hxs; omega
        have hxt : jsizeElems t ≤ N - 1 := by
          simp only [jsizeElems] at hxs; omega
        have hV := (IH (N - 1) (by omega)).1 x hxv
        have hE := (IH (N - 1) (by omega)).2.1 t hxt
        cases t with
        | nil =>
          show Char.ofNat 13 ∉ stringify x
          exact hV
        | cons y r =>
          show Char.ofNat 13 ∉ stringify x ++ ',' :: stringifyElems (y :: r)
          intro h
          rcases List.mem_append.mp h with h | h
          · exact hV h
          rcases List.mem_cons.mp h with h | h
          · exact absurd h (by decide)
          · exact hE h
    · intro ms hms
      cases ms with
      | nil => simp [stringifyMembers]
      | cons m t =>
        obtain ⟨k, v⟩ := m
        have hN : 1 ≤ N := by
          have := jsizeV_pos v
          simp only [jsizeMembers] at hms
          omega
        have hxv : jsizeV v ≤ N - 1 := by
          simp only [jsizeMembers] at hms; omega
        have hxt : jsizeMembers t ≤ N - 1 := by
          simp only [jsizeMembers] at hms; omega
        have hV := (IH (N - 1) (by omega)).1 v hxv
        have hM := (IH (N - 1) (by omega)).2.2 t hxt
        have hmem : Char.ofNat 13 ∉
            '"' :: (escapeChars k ++ '"' :: ':' :: stringify v) := by
          intro h
          rcases List.mem_cons.mp h with h | h
          · exact absurd h (by decide)
          rcases List.mem_append.mp h with h | h
          · exact escapeChars_noCR k h
          rcases List.mem_cons.mp h with h | h
          · exact absurd h (by decide)
          rcases List.mem_cons.mp h with h | h
          · exact absurd h (by decide)
          · exact hV h
        cases t with
        | nil => exact hmem
        | cons y r =>
          show Char.ofNat 13 ∉
            ('"' :: (escapeChars k ++ '"' :: ':' :: stringify v)) ++
              ',' :: stringifyMembers (y :: r)
          intro h
          rcases List.mem_append.mp h with h | h
          · exact hmem h
          rcases List.mem_cons.mp h with h | h
          · exact absurd h (by decide)
          · exact hM h

/-- `indexOfSub` hit at the front. -/
theorem indexOfSub_pos (s pat : List Char) (h : pat.isPrefixOf s = true) :
    indexOfSub s pat = some 0 := by
  unfold indexOfSub
  rw [if_pos h]

/-- `indexOfSub` miss at the front steps to the tail. -/
theorem indexOfSub_neg (c : Char) (t pat : List Char)
    (h : pat.isPrefixOf (c :: t) = false) :
    indexOfSub (c :: t) pat = (indexOfSub t pat).map (· + 1) := by
  rw [indexOfSub.eq_def, if_neg (by rw [h]; exact Bool.false_ne_true)]

/-- The header literal contains no carriage return. -/
theorem headerLit_noCR : ∀ c ∈ headerLit, c ≠ Char.ofNat 13 := by decide

/-- Position of the first header terminator: it sits right after `a` when
`a` contains no carriage return. -/
theorem indexOfSub_middle (b : List Char) :
    ∀ (a : List Char), (∀ c ∈ a, c ≠ Char.ofNat 13) →
      indexOfSub (a ++ crlfcrlf ++ b) crlfcrlf = some a.length := by
  intro a
  induction a with
  | nil =>
    intro _
    exact indexOfSub_pos _ _ (isPrefixOf_append_self crlfcrlf b)
  | cons c t ih =>
    intro hcr
    have hc : c ≠ Char.ofNat 13 := hcr c (List.mem_cons_self c t)
    have hpre : crlfcrlf.isPrefixOf (c :: (t ++ crlfcrlf ++ b)) = false := by
      show (Char.ofNat 13 :: [Char.ofNat 10, Char.ofNat 13, Char.ofNat 10]).isPrefixOf
        (c :: (t ++ crlfcrlf ++ b)) = false
      simp only [List.isPrefixOf, Bool.and_eq_false_iff]
      left
      exact beq_eq_false_iff_ne.mpr (fun h => hc h.symm)
    show indexOfSub (c :: (t ++ crlfcrlf ++ b)) crlfcrlf = some (t.length + 1)
    rw [indexOfSub_neg c _ crlfcrlf hpre,
      ih (fun x hx => hcr x (List.mem_cons_of_mem c hx))]
    rfl

/-- The decimal rendering is non-empty as a boolean. -/
theorem natToChars_isEmpty (n : Nat) : (natToChars n).isEmpty = false := by
  cases hl : natToChars n with
  | nil => exact absurd hl (natToChars_ne_nil n)
  | cons c t => rfl

/-- The header regular expression matches at the start of a formatted
message and captures the content length. -/
theorem headerMatchAt_format (n : Nat) (tail : List Char) :
    headerMatchAt (headerLit ++ (natToChars n ++ (crlfcrlf ++ tail))) =
      some n := by
  have htw : ((headerLit ++ (natToChars n ++ (crlfcrlf ++ tail))).drop
      headerLit.length).takeWhile Char.isDigit = natToChars n := by
    rw [List.drop_left]
    exact takeWhile_append_all Char.isDigit (natToChars n) (crlfcrlf ++ tail)
      (natToChars_digits n)
      (by
        intro c hc
        simp only [crlfcrlf, List.cons_append, List.head?_cons,
          Option.some.injEq] at hc
        rw [← hc]
        decide)
  unfold headerMatchAt
  rw [if_pos (isPrefixOf_append_self headerLit _), htw, natToChars_isEmpty]
  simp only [Bool.false_eq_true, if_false]
  rw [List.drop_left, List.drop_left, charsVal_natToChars]
  rw [if_pos (isPrefixOf_append_self crlfcrlf tail)]

/-- `findHeaderNum` answers from a front match. -/
theorem findHeaderNum_cons_some (c : Char) (rest : List Char) (n : Nat)
    (h : headerMatchAt (c :: rest) = some n) :
    findHeaderNum (c :: rest) = some n := by
  unfold findHeaderNum
  rw [h]

/-- `findHeaderNum` on a formatted message captures the content length. -/
theorem findHeaderNum_format (n : Nat) (tail : List Char) :
    findHeaderNum (headerLit ++ (natToChars n ++ (crlfcrlf ++ tail))) =
      some n := by
  exact findHeaderNum_cons_some 'C' _ n (headerMatchAt_format n tail)

/-- C10: framing then parsing round-trips — `parseDAPMessage` recovers
exactly the message that `formatDAPMessage` serialized, for every message,
including messages whose JSON contains non-ASCII characters: the
`Content-Length` computed as a UTF-8 byte count is at least the character
count, so the character-indexed `substring` extraction clamps at the end of
the single framed message and still yields the whole payload. -/
theorem parseDAPMessage_formatDAPMessage (m : JValue) :
    parseDAPMessage (formatDAPMessage m) = some m := by
  have hfind : findHeaderNum (formatDAPMessage m) =
      some (byteLength (stringify m)) := by
    unfold formatDAPMessage
    rw [List.append_assoc, List.append_assoc]
    exact findHeaderNum_format _ _
  have hidx : indexOfSub (formatDAPMessage m) crlfcrlf =
      some (headerLit ++ natToChars (byteLength (stringify m))).length := by
    unfold formatDAPMessage
    exact indexOfSub_middle (stringify m)
      (headerLit ++ natToChars (byteLength (stringify m)))
      (by
        intro c hc
        rcases List.mem_append.mp hc with h | h
        · exact headerLit_noCR c h
        · intro hcontra
          rw [hcontra] at h
          exact natToChars_noCR _ h)
  unfold parseDAPMessage
  rw [hfind]
  simp only [hidx, Option.getD_some]
  unfold substringJS
  rw [Nat.add_sub_cancel_left]
  have hdrop : (formatDAPMessage m).drop
      ((headerLit ++ natToChars (byteLength (stringify m))).length + 4) =
      stringify m := by
    unfold formatDAPMessage
    rw [show (headerLit ++ natToChars (byteLength (stringify m))).length + 4 =
      ((headerLit ++ natToChars (byteLength (stringify m))) ++ crlfcrlf).length
      from by
        simp only [List.length_append, crlfcrlf, List.length_cons,
          List.length_nil]]
    exact List.drop_left _ _
  rw [hdrop, List.take_of_length_le (length_le_byteLength (stringify m)),
    jsonParse_stringify]

/-! ## C2 — chunk reassembly (`handleDAPOutput` / `parseAllDAPMessages`) -/

/-- One-step unfolding of the `parseAllDAPMessages` loop. -/
theorem parseAllGo_succ (fuel : Nat) (remaining : List Char) :
    parseAllGo (fuel + 1) remaining =
      (if remaining.length = 0 then []
       else
         match findHeaderNum remaining with
         | none => []
         | some contentLength =>
           match jsonParse (substringJS remaining
               ((indexOfSub remaining crlfcrlf).getD 0 + 4)
               ((indexOfSub remaining crlfcrlf).getD 0 + 4 + contentLength)) with
           | none => []
           | some message =>
             message :: parseAllGo fuel
               (remaining.drop
                 ((indexOfSub remaining crlfcrlf).getD 0 + 4 + contentLength))) :=
  rfl

/-- A buffer with no `Content-Length` header yields no messages. -/
theorem parseAllGo_none (fuel : Nat) (tail : List Char)
    (h : findHeaderNum tail = none) : parseAllGo fuel tail = [] := by
  cases fuel with
  | zero => rfl
  | succ f =>
    rw [parseAllGo_succ, h]
    split <;> rfl

/-- The loop extracts one leading ASCII-framed message and continues on the
remainder. -/
theorem parseAllGo_format_step (fuel : Nat) (msg : JValue) (rest : List Char)
    (hascii : byteLength (stringify msg) = (stringify msg).length) :
    parseAllGo (fuel + 1) (formatDAPMessage msg ++ rest) =
      msg :: parseAllGo fuel rest := by
  have hform : formatDAPMessage msg ++ rest =
      headerLit ++ (natToChars (byteLength (stringify msg)) ++
        (crlfcrlf ++ (stringify msg ++ rest))) := by
    simp [formatDAPMessage, List.append_assoc]
  have hgroup : formatDAPMessage msg ++ rest =
      ((headerLit ++ natToChars (byteLength (stringify msg))) ++ crlfcrlf) ++
        (stringify msg ++ rest) := by
    simp [formatDAPMessage, List.append_assoc]
  have hfind : findHeaderNum (formatDAPMessage msg ++ rest) =
      some (byteLength (stringify msg)) := by
    rw [hform]
    exact findHeaderNum_format _ _
  have hidx : indexOfSub (formatDAPMessage msg ++ rest) crlfcrlf =
      some (headerLit ++ natToChars (byteLength (stringify msg))).length := by
    rw [hgroup]
    exact indexOfSub_middle (stringify msg ++ rest)
      (headerLit ++ natToChars (byteLength (stringify msg)))
      (by
        intro c hc
        rcases List.mem_append.mp hc with h | h
        · exact headerLit_noCR c h
        · intro hcontra
          rw [hcontra] at h
          exact natToChars_noCR _ h)
  have hne : (formatDAPMessage msg ++ rest).length ≠ 0 := by
    rw [hform]
    intro h0
    simp only [List.length_append] at h0
    have h16 : headerLit.length = 16 := rfl
    omega
  have hclen : ((headerLit ++ natToChars (byteLength (stringify msg))) ++
      crlfcrlf).length =
      (headerLit ++ natToChars (byteLength (stringify msg))).length + 4 := by
    simp only [List.length_append, crlfcrlf, List.length_cons, List.length_nil]
  have hsub : substringJS (formatDAPMessage msg ++ rest)
      ((headerLit ++ natToChars (byteLength (stringify msg))).length + 4)
      ((headerLit ++ natToChars (byteLength (stringify msg))).length + 4 +
        byteLength (stringify msg)) = stringify msg := by
    unfold substringJS
    rw [Nat.add_sub_cancel_left, hgroup, ← hclen, List.drop_left, hascii,
      List.take_left]
  have hdrop : (formatDAPMessage msg ++ rest).drop
      ((headerLit ++ natToChars (byteLength (stringify msg))).length + 4 +
        byteLength (stringify msg)) = rest := by
    have hregroup : formatDAPMessage msg ++ rest =
        (((headerLit ++ natToChars (byteLength (stringify msg))) ++ crlfcrlf)
          ++ stringify msg) ++ rest := by
      simp [formatDAPMessage, List.append_assoc]
    rw [hregroup,
      show (headerLit ++ natToChars (byteLength (stringify msg))).length + 4 +
          byteLength (stringify msg) =
        (((headerLit ++ natToChars (byteLength (stringify msg))) ++ crlfcrlf)
          ++ stringify msg).length from by
        simp only [List.length_append, crlfcrlf, List.length_cons,
          List.length_nil]
        omega,
      List.drop_left]
  rw [parseAllGo_succ, if_neg hne, hfind]
  show (match jsonParse (substringJS (formatDAPMessage msg ++ rest)
      ((indexOfSub (formatDAPMessage msg ++ rest) crlfcrlf).getD 0 + 4)
      ((indexOfSub (formatDAPMessage msg ++ rest) crlfcrlf).getD 0 + 4 +
        byteLength (stringify msg))) with
    | none => []
    | some message =>
      message :: parseAllGo fuel
        ((formatDAPMessage msg ++ rest).drop
          ((indexOfSub (formatDAPMessage msg ++ rest) crlfcrlf).getD 0 + 4 +
            byteLength (stringify msg)))) = msg :: parseAllGo fuel rest
  rw [hidx]
  simp only [Option.getD_some]
  rw [hsub, jsonParse_stringify, hdrop]

/-- `framedAll` is at least as long as its message list. -/
theorem framedAll_length (msgs : List JValue) :
    msgs.length ≤ (framedAll msgs).length := by
  induction msgs with
  | nil => simp [framedAll]
  | cons m t ih =>
    have hf : 1 ≤ (formatDAPMessage m).length := by
      simp only [formatDAPMessage, List.length_append]
      have h16 : headerLit.length = 16 := rfl
      omega
    simp only [framedAll, List.length_append, List.length_cons]
    omega

/-- With enough fuel, the loop extracts exactly the complete framed
messages and stops at a header-less partial tail. -/
theorem parseAllGo_framed :
    ∀ (msgs : List JValue) (fuel : Nat) (tail : List Char),
      (∀ m ∈ msgs, byteLength (stringify m) = (stringify m).length) →
      findHeaderNum tail = none → msgs.length + 1 ≤ fuel →
      parseAllGo fuel (framedAll msgs ++ tail) = msgs := by
  intro msgs
  induction msgs with
  | nil =>
    intro fuel tail _ hnone _
    show parseAllGo fuel ([] ++ tail) = []
    rw [List.nil_append]
    exact parseAllGo_none fuel tail hnone
  | cons m t ih =>
    intro fuel tail hascii hnone hfuel
    cases fuel with
    | zero => simp at hfuel
    | succ f =>
      show parseAllGo (f + 1)
        ((formatDAPMessage m ++ framedAll t) ++ tail) = m :: t
      rw [List.append_assoc,
        parseAllGo_format_step f m (framedAll t ++ tail)
          (hascii m (List.mem_cons_self m t)),
        ih f tail (fun x hx => hascii x (List.mem_cons_of_mem m hx)) hnone
          (by simp only [List.length_cons] at hfuel; omega)]

/-- `parseAllDAPMessages` on N complete ASCII messages followed by a
header-less partial yields exactly the N messages. -/
theorem parseAllDAPMessages_framed (msgs : List JValue) (tail : List Char)
    (hascii : ∀ m ∈ msgs, byteLength (stringify m) = (stringify m).length)
    (hnone : findHeaderNum tail = none) :
    parseAllDAPMessages (framedAll msgs ++ tail) = msgs := by
  unfold parseAllDAPMessages
  apply parseAllGo_framed msgs _ tail hascii hnone
  have h1 := framedAll_length msgs
  simp only [List.length_append]
  omega

/-- C2 counterexample: for a chunk holding one complete message and the
first ten characters of the next (an incomplete header), followed by the
remaining bytes in a second chunk — the per-chunk listener parse of the
second chunk yields *nothing* (the split message is never parsed and
dispatched when its remaining bytes arrive), while `handleDAPOutput` only
accumulates both chunks; the completed message becomes visible only to
whole-buffer scans, which are never consumed. -/
theorem splitMessage_not_redelivered :
    parseAllDAPMessages c2ChunkA = [c2M1] ∧
    parseAllDAPMessages c2ChunkB = [] ∧
    parseAllDAPMessages (c2ChunkA ++ c2ChunkB) = [c2M1, c2M2] ∧
    (handleDAPOutput (handleDAPOutput c2Session c2ChunkA) c2ChunkB).outputBuffer
      = c2ChunkA ++ c2ChunkB := by
  exact ⟨rfl, rfl, rfl, rfl⟩

/-- C2 (amended): a chunk with N complete (ASCII-payload) messages followed
by a partial message with an incomplete header parses to exactly the N
complete messages, and `handleDAPOutput` retains the whole chunk (partial
remainder included) in the append-only buffer without dispatching anything;
but the split message is never parsed from the later chunk that completes it
— the later chunk alone parses to nothing, and the completed message is
visible only to subsequent whole-buffer scans. -/
theorem handleDAPOutput_split_message :
    (∀ (session : DebugSession) (data : List Char),
      handleDAPOutput session data =
        { session with outputBuffer := session.outputBuffer ++ data }) ∧
    (∀ (msgs : List JValue) (tail : List Char),
      (∀ m ∈ msgs, byteLength (stringify m) = (stringify m).length) →
      findHeaderNum tail = none →
      parseAllDAPMessages (framedAll msgs ++ tail) = msgs) ∧
    parseAllDAPMessages c2ChunkB = [] ∧
    parseAllDAPMessages (c2ChunkA ++ c2ChunkB) = [c2M1, c2M2] :=
  ⟨fun _ _ => rfl, parseAllDAPMessages_framed, rfl, rfl⟩

/-- C2 witness: the general extraction lemma at the concrete split chunk. -/
theorem handleDAPOutput_split_message_witness :
    parseAllDAPMessages (framedAll [c2M1] ++ (formatDAPMessage c2M2).take 10) =
      [c2M1] :=
  handleDAPOutput_split_message.2.1 [c2M1] ((formatDAPMessage c2M2).take 10)
    (by
      intro m hm
      rw [List.mem_singleton.mp hm]
      rfl)
    (by rfl)

end NoirDebug
